import Mathlib

/-!
Verification development for the job-queue library.

The TypeScript sources are shallowly embedded: JavaScript numbers are
modelled as rationals with exact arithmetic (integer-valued fields as
integers), JavaScript null or undefined as Option, the mutable driver
state as explicit state records, and each Date.now() or Math.random()
call site as an explicit parameter of the operation.  Floating point
constants that the source builds from Math.sqrt are embedded as the
exact rational value of the corresponding IEEE-754 double.
-/

/-- Association map keyed by strings, modelling a JavaScript object used
as a dictionary (key order preserved, assignment replaces in place). -/
abbrev QMap (β : Type) := List (String × β)

/-- Lookup of a key, None modelling an absent property (undefined). -/
def qget {β : Type} : QMap β → String → Option β
  | [], _ => none
  | e :: rest, k => if e.1 = k then some e.2 else qget rest k

/-- Assignment obj[k] = v: replaces the value when the key is present,
appends the pair otherwise, as JavaScript property assignment does. -/
def qset {β : Type} : QMap β → String → β → QMap β
  | [], k, v => [(k, v)]
  | e :: rest, k, v => if e.1 = k then (k, v) :: rest else e :: qset rest k v

/-- In-place modification of the value stored under a key, modelling a
mutation of the array found at obj[k]; absent keys are left alone. -/
def qmodify {β : Type} : QMap β → String → (β → β) → QMap β
  | [], _, _ => []
  | e :: rest, k, f =>
    (if e.1 = k then (e.1, f e.2) else e) :: qmodify rest k f

/-- Create the key with a default value when it is absent, modelling the
pattern if (!obj[k]) obj[k] = v0 for values that are always truthy. -/
def ensureKey {β : Type} (m : QMap β) (k : String) (v0 : β) : QMap β :=
  match qget m k with
  | some _ => m
  | none => qset m k v0

theorem qget_qset_self {β : Type} (m : QMap β) (k : String) (v : β) :
    qget (qset m k v) k = some v := by
  induction m with
  | nil => simp [qget, qset]
  | cons e rest ih =>
    by_cases h : e.1 = k
    · simp [qget, qset, h]
    · simp [qget, qset, h, ih]

theorem qget_qset_ne {β : Type} (m : QMap β) (k k2 : String) (v : β)
    (h : k ≠ k2) : qget (qset m k v) k2 = qget m k2 := by
  induction m with
  | nil => simp [qget, qset, h]
  | cons e rest ih =>
    by_cases he : e.1 = k
    · rw [qset, if_pos he, qget, if_neg h, qget, if_neg (he ▸ h)]
    · by_cases he2 : e.1 = k2
      · rw [qset, if_neg he, qget, if_pos he2, qget, if_pos he2]
      · rw [qset, if_neg he, qget, if_neg he2, qget, if_neg he2, ih]

theorem ensureKey_of_some {β : Type} (m : QMap β) (k : String) (v0 v : β)
    (h : qget m k = some v) : ensureKey m k v0 = m := by
  simp [ensureKey, h]

theorem qget_ensureKey_self {β : Type} (m : QMap β) (k : String) (v0 : β) :
    qget (ensureKey m k v0) k = some ((qget m k).getD v0) := by
  unfold ensureKey
  cases h : qget m k with
  | none => simp [qget_qset_self]
  | some v => simp [h]

theorem qget_ensureKey_ne {β : Type} (m : QMap β) (k k2 : String) (v0 : β)
    (h : k ≠ k2) : qget (ensureKey m k v0) k2 = qget m k2 := by
  unfold ensureKey
  cases hq : qget m k with
  | none => simp [qget_qset_ne _ _ _ _ h]
  | some v => rfl

theorem qget_qmodify_self {β : Type} (m : QMap β) (k : String) (f : β → β) :
    qget (qmodify m k f) k = (qget m k).map f := by
  induction m with
  | nil => simp [qget, qmodify]
  | cons e rest ih =>
    by_cases h : e.1 = k
    · simp [qget, qmodify, h]
    · simp [qget, qmodify, h, ih]

theorem qget_qmodify_ne {β : Type} (m : QMap β) (k k2 : String) (f : β → β)
    (h : k ≠ k2) : qget (qmodify m k f) k2 = qget m k2 := by
  induction m with
  | nil => simp [qget, qmodify]
  | cons e rest ih =>
    by_cases he : e.1 = k
    · rw [qmodify, if_pos he, qget, qget, if_neg (he ▸ h), if_neg (he ▸ h), ih]
    · by_cases he2 : e.1 = k2
      · rw [qmodify, if_neg he, qget, if_pos he2, qget, if_pos he2]
      · rw [qmodify, if_neg he, qget, if_neg he2, qget, if_neg he2, ih]

/-- Array.prototype.findIndex followed by a read of the found element:
returns the first element satisfying the predicate with its index. -/
def findWithIdx {α : Type} (p : α → Bool) : List α → Option (Nat × α)
  | [] => none
  | a :: rest =>
    if p a then some (0, a)
    else (findWithIdx p rest).map (fun ix => (ix.1 + 1, ix.2))

theorem findWithIdx_none_iff {α : Type} (p : α → Bool) (l : List α) :
    findWithIdx p l = none ↔ ∀ x ∈ l, p x = false := by
  induction l with
  | nil => simp [findWithIdx]
  | cons a rest ih =>
    cases hp : p a with
    | true => simp [findWithIdx, hp]
    | false => simp [findWithIdx, hp, ih, List.forall_mem_cons]

theorem findWithIdx_some {α : Type} (p : α → Bool) (l : List α)
    (i : Nat) (a : α) (h : findWithIdx p l = some (i, a)) :
    p a = true ∧ l.get? i = some a := by
  induction l generalizing i with
  | nil => simp [findWithIdx] at h
  | cons b rest ih =>
    cases hb : p b with
    | true =>
      rw [findWithIdx, if_pos hb] at h
      simp only [Option.some.injEq, Prod.mk.injEq] at h
      obtain ⟨hi, hab⟩ := h
      subst hi
      subst hab
      exact ⟨hb, rfl⟩
    | false =>
      rw [findWithIdx, if_neg (by simp [hb])] at h
      cases hfi : findWithIdx p rest with
      | none => rw [hfi] at h; simp at h
      | some x =>
        rw [hfi] at h
        simp only [Option.map_some', Option.some.injEq, Prod.mk.injEq] at h
        obtain ⟨hi, hab⟩ := h
        subst hi
        obtain ⟨hp2, hg⟩ := ih x.1 (by rw [hfi, ← hab])
        exact ⟨hp2, by simpa [List.get?] using hg⟩

theorem findWithIdx_some_mem {α : Type} (p : α → Bool) (l : List α)
    (i : Nat) (a : α) (h : findWithIdx p l = some (i, a)) : a ∈ l :=
  List.get?_mem (findWithIdx_some p l i a h).2

theorem findWithIdx_some_lt {α : Type} (p : α → Bool) (l : List α)
    (i : Nat) (a : α) (h : findWithIdx p l = some (i, a)) : i < l.length := by
  obtain ⟨hlt, -⟩ := List.get?_eq_some.mp (findWithIdx_some p l i a h).2
  exact hlt

theorem findWithIdx_some_ne_nil {α : Type} (p : α → Bool) (l : List α)
    (x : Nat × α) (h : findWithIdx p l = some x) : l.isEmpty = false := by
  cases l with
  | nil => simp [findWithIdx] at h
  | cons a rest => rfl

/-- Array.prototype.findIndex followed by splice(index, 1): removes the
first element satisfying the predicate; None when nothing matched. -/
def removeFirstP {α : Type} (p : α → Bool) : List α → Option (List α)
  | [] => none
  | a :: rest =>
    if p a then some rest
    else (removeFirstP p rest).map (fun l => a :: l)

theorem removeFirstP_none_iff {α : Type} (p : α → Bool) (l : List α) :
    removeFirstP p l = none ↔ ∀ x ∈ l, p x = false := by
  induction l with
  | nil => simp [removeFirstP]
  | cons a rest ih =>
    cases hp : p a with
    | true => simp [removeFirstP, hp]
    | false => simp [removeFirstP, hp, ih, List.forall_mem_cons]

theorem removeFirstP_some_exists {α : Type} (p : α → Bool) (l l' : List α)
    (h : removeFirstP p l = some l') : ∃ x ∈ l, p x = true := by
  induction l generalizing l' with
  | nil => simp [removeFirstP] at h
  | cons a rest ih =>
    cases hp : p a with
    | true => exact ⟨a, List.mem_cons_self a rest, hp⟩
    | false =>
      rw [removeFirstP, if_neg (by simp [hp])] at h
      cases hfi : removeFirstP p rest with
      | none => rw [hfi] at h; simp at h
      | some l2 =>
        obtain ⟨x, hx, hpx⟩ := ih l2 hfi
        exact ⟨x, List.mem_cons_of_mem a hx, hpx⟩

theorem removeFirstP_absent_key {α : Type} (p : α → Bool) (f : α → String)
    (k : String) (l l' : List α) (hn : (l.map f).Nodup)
    (hkp : ∀ x, p x = true → f x = k)
    (h : removeFirstP p l = some l') : ∀ y ∈ l', f y ≠ k := by
  induction l generalizing l' with
  | nil => simp [removeFirstP] at h
  | cons a rest ih =>
    simp only [List.map_cons, List.nodup_cons] at hn
    cases hp : p a with
    | true =>
      rw [removeFirstP, if_pos hp] at h
      obtain rfl := Option.some.inj h
      intro y hy hcon
      have hak : f a = k := hkp a hp
      exact hn.1 (hak ▸ hcon ▸ List.mem_map_of_mem f hy)
    | false =>
      rw [removeFirstP, if_neg (by simp [hp])] at h
      cases hfi : removeFirstP p rest with
      | none => rw [hfi] at h; simp at h
      | some l2 =>
        rw [hfi] at h
        obtain rfl := Option.some.inj h
        intro y hy
        rcases List.mem_cons.mp hy with rfl | hy2
        · intro hcon
          obtain ⟨x, hx, hpx⟩ := removeFirstP_some_exists p rest l2 hfi
          have hfx : f x = k := hkp x hpx
          exact hn.1 (hcon ▸ hfx ▸ List.mem_map_of_mem f hx)
        · exact ih l2 hn.2 hfi y hy2

theorem mem_set_self {α : Type} (l : List α) (i : Nat) (a : α)
    (h : i < l.length) : a ∈ l.set i a := by
  induction l generalizing i with
  | nil => simp at h
  | cons b rest ih =>
    cases i with
    | zero => simp [List.set]
    | succ n =>
      simp only [List.set]
      exact List.mem_cons_of_mem b (ih n (by simpa using h))

/-! ## Backoff calculator (Driver.calculateBackoffDelay) -/

/-- Backoff kind: the type field of the backoff configuration. -/
inductive BackoffType
  | fixed
  | exponential
deriving DecidableEq

/-- Backoff configuration record of the driver (type, delay, jitter). -/
structure Backoff where
  type : BackoffType
  delay : ℚ
  jitter : ℚ
deriving DecidableEq

/-- The base delay computed by calculateBackoffDelay before jitter:
the configured delay for the fixed type, and
Math.pow(2, attempts - attemptsLeft) times the delay for the
exponential type. -/
def backoffBase (b : Backoff) (attempts attemptsLeft : ℤ) : ℚ :=
  match b.type with
  | .fixed => b.delay
  | .exponential => (2 : ℚ) ^ (attempts - attemptsLeft) * b.delay

/-- Driver.calculateBackoffDelay.  The Math.random() draw is the
explicit parameter rand, constrained to the interval for random
values where the operation is used. -/
def calculateBackoffDelay (backoff : Option Backoff)
    (attempts attemptsLeft : ℤ) (rand : ℚ) : ℚ :=
  match backoff with
  | none => 0
  | some b =>
    let baseDelay := backoffBase b attempts attemptsLeft
    let maxDelay := baseDelay * b.jitter
    (⌊rand * (maxDelay - baseDelay + 1)⌋ : ℚ) + baseDelay

/-! ## Remote-queue driver numeric clamps (AwsSqsDriver) -/

namespace AwsSqsDriver

/-- AwsSqsDriver.msToS: milliseconds to seconds with ceiling, clamped
into the interval from 0 to 43200 seconds (12 hours). -/
def msToS (v : ℚ) : ℤ :=
  max 0 (min 43200 ⌈v / 1000⌉)

/-- The VisibilityTimeout value that AwsSqsDriver.changeJobVisibility
passes to the ChangeMessageVisibility command for a requested number
of seconds: floored and clamped into the interval from 0 to 43200. -/
def appliedVisibilityTimeout (seconds : ℚ) : ℤ :=
  max 0 (min 43200 ⌊seconds⌋)

end AwsSqsDriver

/-! ## Utils: hash32, prng01 and computeNoAckDelayMs -/

namespace Utils

/-- One step of the FNV-1a loop: xor the code unit in, then a 32-bit
multiply by the FNV prime (Math.imul followed by the final unsigned
shift is equivalent to arithmetic modulo 2 to the 32). -/
def hash32Step (h : ℕ) (c : ℕ) : ℕ :=
  ((h ^^^ c) * 0x01000193) % 2 ^ 32

/-- Utils.hash32: FNV-1a over the code units of the string (code
points and UTF-16 units agree on the basic multilingual plane, which
covers every seed built by this library). -/
def hash32 (s : String) : ℕ :=
  s.data.foldl (fun h ch => hash32Step h ch.toNat) 0x811c9dc5

/-- Utils.prng01: the hash scaled into the unit interval by dividing
by 0xffffffff. -/
def prng01 (seed : String) : ℚ :=
  (hash32 seed : ℚ) / 0xffffffff

/-- Exact rational value of the IEEE-754 double Math.sqrt(5). -/
def sqrt5Float : ℚ := 629397181890197 / 281474976710656

/-- Exact rational value of the double (1 + Math.sqrt(5)) / 2 (both the
addition and the halving are exact in double precision here). -/
def PHI : ℚ := (1 + sqrt5Float) / 2

/-- Exact rational value of the double literal 0.137. -/
def float137 : ℚ := 308496574474879 / 2251799813685248

/-- Pseudo random factor of computeNoAckDelayMs: PHI scaled by the
spread window around 1 driven by the hashed seed. -/
def noAckFactor (h : ℕ) : ℚ :=
  let spread : ℚ := 1 / 4
  PHI * (1 - spread + (h : ℚ) / 0xffffffff * (2 * spread))

/-- The delay of computeNoAckDelayMs before the multiple-of-base
adjustment: Math.round of base times factor. -/
def noAckDelay0 (baseMs : ℤ) (h : ℕ) : ℤ :=
  round ((baseMs : ℚ) * noAckFactor h)

/-- The bump added when the rounded delay is an exact multiple of the
base: Math.max(1, Math.round(baseMs times 0.137)). -/
def noAckBump (baseMs : ℤ) : ℤ :=
  max 1 (round ((baseMs : ℚ) * float137))

/-- Core of Utils.computeNoAckDelayMs once the seed has been hashed:
the rounding, the bump applied when the rounded delay is an exact
multiple of the base, and the final floor at 1. -/
def computeNoAckDelayMsFromHash (baseMs : ℤ) (h : ℕ) : ℤ :=
  max 1 (if 0 < baseMs ∧ noAckDelay0 baseMs h % baseMs = 0
         then noAckDelay0 baseMs h + noAckBump baseMs
         else noAckDelay0 baseMs h)

/-- Utils.computeNoAckDelayMs: all randomness comes from the hash of
the seed, so the function factors through hash32. -/
def computeNoAckDelayMs (baseMs : ℤ) (seed : String) : ℤ :=
  computeNoAckDelayMsFromHash baseMs (hash32 seed)

end Utils

/-! ## Shared driver configuration -/

/-- JavaScript truthiness of an optional numeric field: undefined and
null are falsy, and so is the number 0. -/
def numTruthy : Option ℚ → Bool
  | none => false
  | some t => decide (t ≠ 0)

/-- JavaScript truthiness of an optional string field: undefined, null
and the empty string are falsy. -/
def strOptTruthy : Option String → Bool
  | none => false
  | some s => decide (s ≠ "")

/-- Property key used when indexing a queues object with the deadletter
field: an undefined deadletter is coerced by JavaScript to the string
key undefined. -/
def dlKey : Option String → String
  | none => "undefined"
  | some s => s

/-- Configuration fields the Driver base class reads for a connection:
queue name, deadletter name, attempt budget, backoff policy, and the
worker timing fields used by process. -/
structure DriverConfig where
  queueName : String
  deadletter : Option String
  attempts : ℤ
  backoff : Option Backoff
  workerInterval : ℚ
  visibilityTimeout : ℚ
  noAckDelayMs : ℚ
deriving DecidableEq

/-- Outcome of one processor (handler) invocation inside process: the
handler either returns normally, possibly having called ack on the job
it received, or it throws.  Handlers that reenter the driver in other
ways are outside this model. -/
inductive HandlerOutcome
  | success (handlerAcked : Bool)
  | failure
deriving DecidableEq

/-! ## MemoryDriver -/

namespace MemoryDriver

/-- Job record stored by the memory driver.  The formerQueue field is
never assigned by this driver, so reading it always yields undefined;
it is kept so that statements about dead-lettered copies can mention
it. -/
structure Job where
  id : String
  attempts : ℤ
  availableAt : ℚ
  reservedUntil : Option ℚ
  createdAt : ℚ
  data : String
  formerQueue : Option String := none
deriving DecidableEq

/-- State of the memory driver: the queues object of the client and the
static ackedIds set (modelled as a duplicate-free membership list). -/
structure State where
  queues : QMap (List Job)
  ackedIds : List String
deriving DecidableEq

/-- MemoryDriver.defineQueue: create the queue and deadletter keys when
absent. -/
def defineQueue (cfg : DriverConfig) (st : State) : State :=
  { st with queues :=
      ensureKey (ensureKey st.queues cfg.queueName []) (dlKey cfg.deadletter) [] }

/-- The array stored under the configured queue name. -/
def currentQueue (cfg : DriverConfig) (st : State) : List Job :=
  (qget st.queues cfg.queueName).getD []

/-- One job of MemoryDriver.releaseExpiredLeases: clear the lease when
reservedUntil is truthy and not in the future. -/
def releaseJob (now : ℚ) (j : Job) : Job :=
  match j.reservedUntil with
  | none => j
  | some t => if t ≠ 0 ∧ t ≤ now then { j with reservedUntil := none } else j

/-- MemoryDriver.releaseExpiredLeases over the current queue. -/
def releaseExpiredLeases (cfg : DriverConfig) (st : State) (now : ℚ) : State :=
  { st with queues := qmodify st.queues cfg.queueName (List.map (releaseJob now)) }

/-- Eligibility test of MemoryDriver.peek: available and with a falsy
reservedUntil. -/
def eligibleAt (now : ℚ) (j : Job) : Bool :=
  decide (j.availableAt ≤ now) && !numTruthy j.reservedUntil

/-- State reached inside MemoryDriver.peek after defineQueue and
releaseExpiredLeases have run. -/
def peekState (cfg : DriverConfig) (st : State) (now : ℚ) : State :=
  releaseExpiredLeases cfg (defineQueue cfg st) now

/-- MemoryDriver.peek: find the first eligible job of the released
queue (returning its index as well, standing for the reference the
caller holds into the array). -/
def peekWithIdx (cfg : DriverConfig) (st : State) (now : ℚ) :
    Option (Nat × Job) × State :=
  let st1 := peekState cfg st now
  let q := currentQueue cfg st1
  (if q.isEmpty then none else findWithIdx (eligibleAt now) q, st1)

/-- MemoryDriver.peek as the caller sees it. -/
def peek (cfg : DriverConfig) (st : State) (now : ℚ) : Option Job :=
  ((peekWithIdx cfg st now).1).map (fun ix => ix.2)

/-- MemoryDriver.add: push a fresh job with the configured attempt
budget; the generated id and the clock reading are parameters. -/
def add (cfg : DriverConfig) (st : State) (now : ℚ) (id : String)
    (data : String) : State :=
  let st1 := defineQueue cfg st
  let newJob : Job :=
    { id := id, attempts := cfg.attempts, availableAt := now,
      reservedUntil := none, createdAt := now, data := data }
  let q := currentQueue cfg st1 ++ [newJob]
  { st1 with queues := qset st1.queues cfg.queueName q }

/-- MemoryDriver.pop: shift the first job off the queue. -/
def pop (cfg : DriverConfig) (st : State) : Option Job × State :=
  let st1 := defineQueue cfg st
  match currentQueue cfg st1 with
  | [] => (none, st1)
  | j :: rest => (some j, { st1 with queues := qset st1.queues cfg.queueName rest })

/-- MemoryDriver.length. -/
def length (cfg : DriverConfig) (st : State) : ℕ :=
  (currentQueue cfg (defineQueue cfg st)).length

/-- MemoryDriver.ack: splice out the first job with the given id (no
lease check) and remember the id in the static ackedIds set; silently
a no-op when the id is not found. -/
def ack (cfg : DriverConfig) (st : State) (id : String) : State :=
  let st1 := defineQueue cfg st
  match removeFirstP (fun j => j.id = id) (currentQueue cfg st1) with
  | none => st1
  | some q' =>
    let acked := if st1.ackedIds.contains id then st1.ackedIds else st1.ackedIds ++ [id]
    { st1 with queues := qset st1.queues cfg.queueName q', ackedIds := acked }

/-- MemoryDriver.process.  The clock readings of peek, of the lease
grant and of the completion handling are nowPeek, nowLease and
nowDone; rJitter and rBackoff are the two Math.random() draws; the
handler behaviour is the ho parameter. -/
def process (cfg : DriverConfig) (st : State)
    (nowPeek nowLease nowDone : ℚ) (rJitter rBackoff : ℚ)
    (ho : HandlerOutcome) : State :=
  let pr := peekWithIdx cfg st nowPeek
  let st1 := pr.2
  let requeueJitterMs : ℤ := ⌊rJitter * cfg.workerInterval⌋
  match pr.1 with
  | none => st1
  | some (i, j0) =>
    let st2 := { st1 with ackedIds := st1.ackedIds.filter (fun x => x ≠ j0.id) }
    let j1 := { j0 with attempts := j0.attempts - 1,
                        reservedUntil := some (nowLease + cfg.visibilityTimeout) }
    let q3 := qset st2.queues cfg.queueName ((currentQueue cfg st2).set i j1)
    let st3 := { st2 with queues := q3 }
    match ho with
    | .success handlerAcked =>
      let st4 := if handlerAcked then ack cfg st3 j1.id else st3
      if st4.ackedIds.contains j1.id then st4
      else
        let j2 := { j1 with reservedUntil := none,
                            availableAt := nowDone + cfg.noAckDelayMs + (requeueJitterMs : ℚ) }
        let q5 := qset st4.queues cfg.queueName ((currentQueue cfg st4).set i j2)
        { st4 with queues := q5 }
    | .failure =>
      let j2 := { j1 with reservedUntil := none }
      let q4 := qset st3.queues cfg.queueName ((currentQueue cfg st3).set i j2)
      let st4 := { st3 with queues := q4 }
      if 0 < j1.attempts then
        let delayQ := calculateBackoffDelay cfg.backoff cfg.attempts j1.attempts rBackoff
        let j3 := { j2 with availableAt := nowDone + delayQ + (requeueJitterMs : ℚ) }
        let q5 := qset st4.queues cfg.queueName ((currentQueue cfg st4).set i j3)
        { st4 with queues := q5 }
      else
        let st5 := ack cfg st4 j2.id
        if strOptTruthy cfg.deadletter then
          let dlq := (qget st5.queues (dlKey cfg.deadletter)).getD []
          let q6 := qset st5.queues (dlKey cfg.deadletter) (dlq ++ [{ j2 with attempts := 0 }])
          { st5 with queues := q6 }
        else st5

end MemoryDriver

/-! ## VanillaDriver (status-tracking revision) -/

namespace VanillaDriver

/-- Status field of a vanilla-driver job. -/
inductive JobStatus
  | pending
  | processing
deriving DecidableEq

/-- Job record stored by the vanilla driver.  The queue and formerQueue
fields exist only on dead-lettered copies; on ordinary jobs they read
as undefined. -/
structure Job where
  id : String
  status : JobStatus
  attemptsLeft : ℤ
  availableAt : ℚ
  leaseUntil : Option ℚ
  data : String
  queue : Option String := none
  formerQueue : Option String := none
deriving DecidableEq

/-- State of the vanilla driver: the queues object and the per-instance
ackedIds set. -/
structure State where
  queues : QMap (List Job)
  ackedIds : List String
deriving DecidableEq

/-- VanillaDriver.defineQueue. -/
def defineQueue (cfg : DriverConfig) (st : State) : State :=
  { st with queues :=
      ensureKey (ensureKey st.queues cfg.queueName []) (dlKey cfg.deadletter) [] }

/-- The array stored under the configured queue name. -/
def currentQueue (cfg : DriverConfig) (st : State) : List Job :=
  (qget st.queues cfg.queueName).getD []

/-- One job of VanillaDriver.releaseExpiredLeases: jobs in processing
status with a truthy expired lease go back to pending. -/
def releaseJob (now : ℚ) (j : Job) : Job :=
  match j.leaseUntil with
  | none => j
  | some t =>
    if j.status = .processing ∧ t ≠ 0 ∧ t ≤ now then
      { j with status := .pending, leaseUntil := none }
    else j

/-- VanillaDriver.releaseExpiredLeases over the current queue. -/
def releaseExpiredLeases (cfg : DriverConfig) (st : State) (now : ℚ) : State :=
  { st with queues := qmodify st.queues cfg.queueName (List.map (releaseJob now)) }

/-- Eligibility test of VanillaDriver.peek: pending, available, falsy
lease. -/
def eligibleAt (now : ℚ) (j : Job) : Bool :=
  decide (j.status = .pending) && decide (j.availableAt ≤ now) && !numTruthy j.leaseUntil

/-- State reached inside VanillaDriver.peek after defineQueue and
releaseExpiredLeases. -/
def peekState (cfg : DriverConfig) (st : State) (now : ℚ) : State :=
  releaseExpiredLeases cfg (defineQueue cfg st) now

/-- VanillaDriver.peek with the index of the found job. -/
def peekWithIdx (cfg : DriverConfig) (st : State) (now : ℚ) :
    Option (Nat × Job) × State :=
  let st1 := peekState cfg st now
  let q := currentQueue cfg st1
  (if q.isEmpty then none else findWithIdx (eligibleAt now) q, st1)

/-- VanillaDriver.peek as the caller sees it. -/
def peek (cfg : DriverConfig) (st : State) (now : ℚ) : Option Job :=
  ((peekWithIdx cfg st now).1).map (fun ix => ix.2)

/-- VanillaDriver.add. -/
def add (cfg : DriverConfig) (st : State) (now : ℚ) (id : String)
    (data : String) : State :=
  let st1 := defineQueue cfg st
  let newJob : Job :=
    { id := id, status := .pending, attemptsLeft := cfg.attempts,
      availableAt := now, leaseUntil := none, data := data }
  let q := currentQueue cfg st1 ++ [newJob]
  { st1 with queues := qset st1.queues cfg.queueName q }

/-- VanillaDriver.ack: splice out the first job with the given id that
is in processing status; silently a no-op otherwise. -/
def ack (cfg : DriverConfig) (st : State) (id : String) : State :=
  let st1 := defineQueue cfg st
  match removeFirstP (fun j => j.id = id ∧ j.status = .processing)
      (currentQueue cfg st1) with
  | none => st1
  | some q' =>
    let acked := if st1.ackedIds.contains id then st1.ackedIds else st1.ackedIds ++ [id]
    { st1 with queues := qset st1.queues cfg.queueName q', ackedIds := acked }

/-- VanillaDriver.process, with the same conventions as the memory
driver model.  On exhaustion the job is spliced out by id directly (no
ack call) and the dead-letter copy records queue and formerQueue. -/
def process (cfg : DriverConfig) (st : State)
    (nowPeek nowLease nowDone : ℚ) (rJitter rBackoff : ℚ)
    (ho : HandlerOutcome) : State :=
  let pr := peekWithIdx cfg st nowPeek
  let st1 := pr.2
  let requeueJitterMs : ℤ := ⌊rJitter * cfg.workerInterval⌋
  match pr.1 with
  | none => st1
  | some (i, j0) =>
    let st2 := { st1 with ackedIds := st1.ackedIds.filter (fun x => x ≠ j0.id) }
    let j1 := { j0 with attemptsLeft := j0.attemptsLeft - 1,
                        status := JobStatus.processing,
                        leaseUntil := some (nowLease + cfg.visibilityTimeout) }
    let q3 := qset st2.queues cfg.queueName ((currentQueue cfg st2).set i j1)
    let st3 := { st2 with queues := q3 }
    match ho with
    | .success handlerAcked =>
      let st4 := if handlerAcked then ack cfg st3 j1.id else st3
      if st4.ackedIds.contains j1.id then st4
      else
        let j2 := { j1 with status := JobStatus.pending, leaseUntil := none,
                            availableAt := nowDone + cfg.noAckDelayMs + (requeueJitterMs : ℚ) }
        let q5 := qset st4.queues cfg.queueName ((currentQueue cfg st4).set i j2)
        { st4 with queues := q5 }
    | .failure =>
      let j2 := { j1 with leaseUntil := none }
      let q4 := qset st3.queues cfg.queueName ((currentQueue cfg st3).set i j2)
      let st4 := { st3 with queues := q4 }
      if 0 < j1.attemptsLeft then
        let delayQ := calculateBackoffDelay cfg.backoff cfg.attempts j1.attemptsLeft rBackoff
        let j3 := { j2 with status := JobStatus.pending,
                            availableAt := nowDone + delayQ + (requeueJitterMs : ℚ) }
        let q5 := qset st4.queues cfg.queueName ((currentQueue cfg st4).set i j3)
        { st4 with queues := q5 }
      else
        let q5 := match removeFirstP (fun j => j.id = j2.id) (currentQueue cfg st4) with
          | none => currentQueue cfg st4
          | some q' => q'
        let st5 := { st4 with queues := qset st4.queues cfg.queueName q5 }
        if strOptTruthy cfg.deadletter then
          let copy := { j2 with attemptsLeft := (0 : ℤ),
                                queue := cfg.deadletter,
                                formerQueue := some cfg.queueName,
                                status := JobStatus.pending }
          let dlq := (qget st5.queues (dlKey cfg.deadletter)).getD []
          let q6 := qset st5.queues (dlKey cfg.deadletter) (dlq ++ [copy])
          { st5 with queues := q6 }
        else st5

end VanillaDriver

/-! ## DatabaseDriver -/

namespace DatabaseDriver

/-- Row of the shared jobs table. -/
structure Row where
  id : String
  queue : String
  attempts : ℤ
  availableAt : ℚ
  reservedUntil : Option ℚ
  createdAt : ℚ
  data : String
deriving DecidableEq

/-- State of the database driver: the jobs table and the static
ackedIds set. -/
structure State where
  table : List Row
  ackedIds : List String
deriving DecidableEq

/-- An UPDATE statement over the table: apply f to every row matched by
the predicate. -/
def updateRows (p : Row → Bool) (f : Row → Row) (t : List Row) : List Row :=
  t.map (fun r => if p r then f r else r)

/-- A DELETE statement over the table. -/
def deleteRows (p : Row → Bool) (t : List Row) : List Row :=
  t.filter (fun r => !p r)

/-- SQL comparison reservedUntil <= now: false on NULL. -/
def reservedLe (r : Row) (now : ℚ) : Bool :=
  match r.reservedUntil with
  | none => false
  | some t => decide (t ≤ now)

/-- DatabaseDriver.releaseExpiredLeases: UPDATE ... SET reservedUntil =
NULL WHERE queue = q AND reservedUntil <= now. -/
def releaseExpiredLeases (cfg : DriverConfig) (st : State) (now : ℚ) : State :=
  let t := updateRows
    (fun r => decide (r.queue = cfg.queueName) && reservedLe r now)
    (fun r => { r with reservedUntil := none }) st.table
  { st with table := t }

/-- Eligibility clause of the pop and peek queries: queue match,
availableAt <= now, and reservedUntil IS NULL OR reservedUntil <= now. -/
def eligibleAt (cfg : DriverConfig) (now : ℚ) (r : Row) : Bool :=
  decide (r.queue = cfg.queueName) && decide (r.availableAt ≤ now) &&
    (r.reservedUntil.isNone || reservedLe r now)

/-- Ordering key of the queries: ORDER BY availableAt ASC, createdAt
ASC, keeping the earlier row on ties. -/
def rowKeyLe (a b : Row) : Bool :=
  decide (a.availableAt < b.availableAt) ||
    (decide (a.availableAt = b.availableAt) && decide (a.createdAt ≤ b.createdAt))

/-- The row returned by find() under the ordering: the first minimal
row of the list. -/
def selectFirst : List Row → Option Row
  | [] => none
  | r :: rest =>
    match selectFirst rest with
    | none => some r
    | some m => if rowKeyLe r m then some r else some m

/-- DatabaseDriver.peek: release expired leases, then find the first
eligible row under the ordering.  Returns the (possibly) updated state
because releaseExpiredLeases writes to the table. -/
def peek (cfg : DriverConfig) (st : State) (now : ℚ) : Option Row × State :=
  let st1 := releaseExpiredLeases cfg st now
  (selectFirst (st1.table.filter (eligibleAt cfg now)), st1)

/-- DatabaseDriver.add. -/
def add (cfg : DriverConfig) (st : State) (now : ℚ) (id : String)
    (data : String) : State :=
  let row : Row :=
    { id := id, queue := cfg.queueName, attempts := cfg.attempts,
      availableAt := now, reservedUntil := none, createdAt := now, data := data }
  { st with table := st.table ++ [row] }

/-- DatabaseDriver.ack: record the id as acked, then DELETE WHERE queue
AND id. -/
def ack (cfg : DriverConfig) (st : State) (id : String) : State :=
  let acked := if st.ackedIds.contains id then st.ackedIds else st.ackedIds ++ [id]
  { st with ackedIds := acked,
            table := deleteRows
              (fun r => decide (r.queue = cfg.queueName) && decide (r.id = id)) st.table }

/-- DatabaseDriver.process, same conventions as the memory model; all
job mutations go through UPDATE statements keyed on the job id. -/
def process (cfg : DriverConfig) (st : State)
    (nowPeek nowLease nowDone : ℚ) (rJitter rBackoff : ℚ)
    (ho : HandlerOutcome) : State :=
  let pr := peek cfg st nowPeek
  let st1 := pr.2
  let requeueJitterMs : ℤ := ⌊rJitter * cfg.workerInterval⌋
  match pr.1 with
  | none => st1
  | some j0 =>
    let st2 := { st1 with ackedIds := st1.ackedIds.filter (fun x => x ≠ j0.id) }
    let newAttempts := j0.attempts - 1
    let newReserved : Option ℚ := some (nowLease + cfg.visibilityTimeout)
    let t3 := updateRows (fun r => decide (r.id = j0.id))
      (fun r => { r with attempts := newAttempts, reservedUntil := newReserved }) st2.table
    let st3 := { st2 with table := t3 }
    match ho with
    | .success handlerAcked =>
      let st4 := if handlerAcked then ack cfg st3 j0.id else st3
      if st4.ackedIds.contains j0.id then st4
      else
        let t5 := updateRows
          (fun r => decide (r.queue = cfg.queueName) && decide (r.id = j0.id))
          (fun r => { r with availableAt := nowDone + cfg.noAckDelayMs + (requeueJitterMs : ℚ),
                             reservedUntil := none }) st4.table
        { st4 with table := t5 }
    | .failure =>
      if 0 < newAttempts then
        let delayQ := calculateBackoffDelay cfg.backoff cfg.attempts newAttempts rBackoff
        let t4 := updateRows (fun r => decide (r.id = j0.id))
          (fun r => { r with reservedUntil := none,
                             availableAt := nowDone + delayQ + (requeueJitterMs : ℚ) }) st3.table
        { st3 with table := t4 }
      else
        let st4 := ack cfg st3 j0.id
        if strOptTruthy cfg.deadletter then
          let copy : Row :=
            { id := j0.id, queue := dlKey cfg.deadletter, attempts := 0,
              availableAt := j0.availableAt, reservedUntil := none,
              createdAt := j0.createdAt, data := j0.data }
          { st4 with table := st4.table ++ [copy] }
        else st4

end DatabaseDriver

/-! ## WorkerTaskBuilder (timer-list revision) -/

namespace WorkerTaskBuilder

/-- Observable state of one worker task: the isRegistered flag and the
list of pending timer handles. -/
structure TaskState where
  isRegistered : Bool
  timers : List ℕ
deriving DecidableEq

/-- WorkerTaskBuilder.stop: early return when not registered; otherwise
clear the flag, cancel every pending timer and empty the list. -/
def stop (s : TaskState) : TaskState :=
  if s.isRegistered then { isRegistered := false, timers := [] } else s

/-- WorkerTaskBuilder.spawn: push the initial timer of one polling
loop. -/
def spawn (s : TaskState) (t : ℕ) : TaskState :=
  { s with timers := s.timers ++ [t] }

/-- WorkerTaskBuilder.start: no-op when unregistered or when timers are
already pending; otherwise spawn the concurrency many initial
timers. -/
def start (s : TaskState) (concurrency : ℕ) (ts : List ℕ) : TaskState :=
  if s.isRegistered = false then s
  else if s.timers.isEmpty = false then s
  else (List.range concurrency).foldl (fun acc i => spawn acc (ts.getD i 0)) s

/-- One firing of the loop closure created by spawn: if the task is no
longer registered the closure returns at once without scheduling
anything; otherwise the run happens and the finally block pushes the
next timer.  The boolean result records whether a new run was
scheduled. -/
def loopStep (s : TaskState) (newTimer : ℕ) : TaskState × Bool :=
  if s.isRegistered then ({ s with timers := s.timers ++ [newTimer] }, true)
  else (s, false)

end WorkerTaskBuilder

/-! ## ConnectionFactory (per-connection client cache) -/

namespace ConnectionFactory

/-- Entry of the connections map: the record holding a nullable client
handle (a handle is modelled as a string). -/
structure ConnEntry where
  client : Option String
deriving DecidableEq

/-- Static state of the factory: the connections map.  An absent key
models a name that was never fabricated and never given a client. -/
structure FState where
  connections : QMap ConnEntry
deriving DecidableEq

/-- Configuration environment the factory reads: the default connection
name, the driver name configured per connection, and the registered
driver names. -/
structure Env where
  defaultConnection : String
  connectionDriver : QMap String
  drivers : List String
deriving DecidableEq

/-- ConnectionFactory.parseConName. -/
def parseConName (env : Env) (con : String) : String :=
  if con = "default" then env.defaultConnection else con

/-- ConnectionFactory.getConnectionDriver: None models the thrown
NotImplementedConfigException or NotFoundDriverException. -/
def getConnectionDriver (env : Env) (con : String) : Option String :=
  match qget env.connectionDriver con with
  | none => none
  | some d => if env.drivers.contains d then some d else none

/-- ConnectionFactory.hasClient: None models the TypeError raised when
the connections map has no entry for the name (the code reads the
client field of the result of Map.get without a guard). -/
def hasClient (st : FState) (con : String) : Option Bool :=
  (qget st.connections con).map (fun e => e.client.isSome)

/-- ConnectionFactory.getClient, with the same failure convention. -/
def getClient (st : FState) (con : String) : Option (Option String) :=
  (qget st.connections con).map (fun e => e.client)

/-- ConnectionFactory.setClient: tolerates a missing entry through the
get-or-empty-object pattern. -/
def setClient (st : FState) (con : String) (client : Option String) : FState :=
  { connections := qset st.connections con { client := client } }

/-- Result of a successful fabricate call: the new factory state plus
the driver name, parsed connection name and client handle passed to
the driver constructor. -/
structure FabResult where
  state : FState
  driverName : String
  con : String
  client : Option String
deriving DecidableEq

/-- ConnectionFactory.fabricate: parse the name, resolve the driver,
then construct a driver around the cached client; a missing map entry
is created with a null client.  None models the configuration and
driver lookup exceptions. -/
def fabricate (env : Env) (st : FState) (con0 : String) : Option FabResult :=
  let con := parseConName env con0
  match getConnectionDriver env con with
  | none => none
  | some driverName =>
    match qget st.connections con with
    | none =>
      some { state := { connections := qset st.connections con { client := none } },
             driverName := driverName, con := con, client := none }
    | some entry =>
      match entry.client with
      | some c => some { state := st, driverName := driverName, con := con, client := some c }
      | none => some { state := st, driverName := driverName, con := con, client := none }

end ConnectionFactory

/-! ## Claim C3: backoff delay bounds -/

/-- Claim C3 counterexample: with a fixed policy of delay 1000 and
jitterFactor 0 (which is at most 1), the random draw 1/2 yields 500
while the draw 0 yields 1000, so randomization is applied even though
jitterFactor is at most 1, and 500 does not lie in the inclusive
range from 1000 to 1000 times 0. -/
theorem calculateBackoffDelay_jitter_cex :
    calculateBackoffDelay (some { type := .fixed, delay := 1000, jitter := 0 }) 1 0 (1/2) = 500 ∧
    calculateBackoffDelay (some { type := .fixed, delay := 1000, jitter := 0 }) 1 0 0 = 1000 ∧
    ¬((1000 : ℚ) ≤ 500 ∧ (500 : ℚ) ≤ 1000 * 0) := by
  refine ⟨?_, ?_, ?_⟩
  · norm_num [calculateBackoffDelay, backoffBase]
  · norm_num [calculateBackoffDelay, backoffBase]
  · norm_num

/-- Claim C3 (amended): with no policy the delay is 0; with a fixed or
exponential policy of nonnegative delay the result is nonnegative
whenever jitterFactor is nonnegative; when jitterFactor is at least 1
the result lies between the computed base delay (inclusive) and base
times jitterFactor plus one (exclusive); when jitterFactor equals 1 no
randomization is applied and the result is exactly the base; and for a
nonnegative attempt index and an integer configured delay the result
is an integer.  For jitterFactor below 1 the code still randomizes,
as the counterexample shows. -/
theorem calculateBackoffDelay_bounds (b : Backoff) (attempts attemptsLeft : ℤ)
    (rand : ℚ) (hr0 : 0 ≤ rand) (hr1 : rand < 1) (hd : 0 ≤ b.delay) :
    calculateBackoffDelay none attempts attemptsLeft rand = 0 ∧
    (0 ≤ b.jitter → 0 ≤ calculateBackoffDelay (some b) attempts attemptsLeft rand) ∧
    (1 ≤ b.jitter →
      backoffBase b attempts attemptsLeft ≤
        calculateBackoffDelay (some b) attempts attemptsLeft rand ∧
      calculateBackoffDelay (some b) attempts attemptsLeft rand <
        backoffBase b attempts attemptsLeft * b.jitter + 1) ∧
    (b.jitter = 1 → calculateBackoffDelay (some b) attempts attemptsLeft rand =
      backoffBase b attempts attemptsLeft) ∧
    (attemptsLeft ≤ attempts → (∃ n : ℤ, b.delay = (n : ℚ)) →
      ∃ m : ℤ, calculateBackoffDelay (some b) attempts attemptsLeft rand = (m : ℚ)) := by
  have hbase0 : 0 ≤ backoffBase b attempts attemptsLeft := by
    unfold backoffBase
    cases b.type with
    | fixed => exact hd
    | exponential => exact mul_nonneg (zpow_nonneg (by norm_num) _) hd
  set base := backoffBase b attempts attemptsLeft with hbase
  have hcalc : calculateBackoffDelay (some b) attempts attemptsLeft rand =
      (⌊rand * (base * b.jitter - base + 1)⌋ : ℚ) + base := rfl
  refine ⟨rfl, ?_, ?_, ?_, ?_⟩
  · intro hj
    rw [hcalc]
    set c : ℚ := base * b.jitter - base + 1 with hc
    have hF1 : (⌊rand * c⌋ : ℚ) ≤ rand * c := Int.floor_le _
    have hF2 : rand * c - 1 < (⌊rand * c⌋ : ℚ) := Int.sub_one_lt_floor _
    rcases le_or_lt c 0 with hcle | hclt
    · have hrc : c ≤ rand * c := by nlinarith
      have hbj : 0 ≤ base * b.jitter := mul_nonneg hbase0 hj
      nlinarith
    · have hrc : 0 ≤ rand * c := mul_nonneg hr0 (le_of_lt hclt)
      have : (0 : ℚ) ≤ (⌊rand * c⌋ : ℚ) := by
        exact_mod_cast Int.floor_nonneg.mpr hrc
      linarith
  · intro hj
    rw [hcalc]
    set c : ℚ := base * b.jitter - base + 1 with hc
    have hclt : 0 < c := by nlinarith
    have hrc : 0 ≤ rand * c := mul_nonneg hr0 (le_of_lt hclt)
    have hlow : (0 : ℚ) ≤ (⌊rand * c⌋ : ℚ) := by
      exact_mod_cast Int.floor_nonneg.mpr hrc
    have hF1 : (⌊rand * c⌋ : ℚ) ≤ rand * c := Int.floor_le _
    have hup : rand * c < c := by nlinarith
    constructor
    · linarith
    · nlinarith
  · intro hj
    rw [hcalc, hj]
    have : base * 1 - base + 1 = (1 : ℚ) := by ring
    rw [this]
    have hfz : ⌊rand * 1⌋ = 0 := by
      rw [mul_one]
      exact Int.floor_eq_zero_iff.mpr ⟨hr0, hr1⟩
    rw [hfz]
    norm_num
  · intro hk ⟨n, hn⟩
    have hbint : ∃ p : ℤ, base = (p : ℚ) := by
      rw [hbase]
      unfold backoffBase
      cases b.type with
      | fixed => exact ⟨n, hn⟩
      | exponential =>
        refine ⟨2 ^ (attempts - attemptsLeft).toNat * n, ?_⟩
        have hexp : (2 : ℚ) ^ (attempts - attemptsLeft) =
            (2 : ℚ) ^ ((attempts - attemptsLeft).toNat : ℤ) := by
          rw [Int.toNat_of_nonneg (sub_nonneg.mpr hk)]
        rw [hexp, zpow_natCast, hn]
        push_cast
        ring
    obtain ⟨p, hp⟩ := hbint
    rw [hcalc, hp]
    exact ⟨⌊rand * ((p : ℚ) * b.jitter - (p : ℚ) + 1)⌋ + p, by push_cast; ring⟩

/-- Claim C3 witness: the amended bounds evaluated at a fixed policy
with delay 1000 and jitterFactor 2, attempt budget 1, one attempt
consumed, random draw 1/2. -/
theorem calculateBackoffDelay_bounds_witness :
    (0 : ℚ) ≤ 1/2 ∧ (1/2 : ℚ) < 1 ∧ (0 : ℚ) ≤ 1000 ∧
    (calculateBackoffDelay none 1 0 (1/2) = 0 ∧
    ((0:ℚ) ≤ (2:ℚ) → 0 ≤ calculateBackoffDelay
      (some { type := .fixed, delay := 1000, jitter := 2 }) 1 0 (1/2)) ∧
    ((1:ℚ) ≤ (2:ℚ) →
      backoffBase { type := .fixed, delay := 1000, jitter := 2 } 1 0 ≤
        calculateBackoffDelay (some { type := .fixed, delay := 1000, jitter := 2 }) 1 0 (1/2) ∧
      calculateBackoffDelay (some { type := .fixed, delay := 1000, jitter := 2 }) 1 0 (1/2) <
        backoffBase { type := .fixed, delay := 1000, jitter := 2 } 1 0 * 2 + 1) ∧
    ((2:ℚ) = 1 → calculateBackoffDelay
      (some { type := .fixed, delay := 1000, jitter := 2 }) 1 0 (1/2) =
      backoffBase { type := .fixed, delay := 1000, jitter := 2 } 1 0) ∧
    ((0:ℤ) ≤ 1 → (∃ n : ℤ, (1000 : ℚ) = (n : ℚ)) →
      ∃ m : ℤ, calculateBackoffDelay
        (some { type := .fixed, delay := 1000, jitter := 2 }) 1 0 (1/2) = (m : ℚ))) := by
  refine ⟨by norm_num, by norm_num, by norm_num, ?_⟩
  exact calculateBackoffDelay_bounds { type := .fixed, delay := 1000, jitter := 2 } 1 0 (1/2)
    (by norm_num) (by norm_num) (by norm_num)

/-! ## Claim C7: remote-queue visibility clamps -/

/-- Claim C7: the millisecond-to-second conversion of the remote-queue
driver and the VisibilityTimeout value of every
ChangeMessageVisibility call are clamped into the inclusive range from
0 to 43200 seconds (12 hours), for every computed delay. -/
theorem sqs_visibility_clamped (v seconds : ℚ) :
    0 ≤ AwsSqsDriver.msToS v ∧ AwsSqsDriver.msToS v ≤ 43200 ∧
    0 ≤ AwsSqsDriver.appliedVisibilityTimeout seconds ∧
    AwsSqsDriver.appliedVisibilityTimeout seconds ≤ 43200 := by
  refine ⟨le_max_left 0 _, ?_, le_max_left 0 _, ?_⟩
  · exact max_le (by norm_num) (min_le_left _ _)
  · exact max_le (by norm_num) (min_le_left _ _)

/-! ## Claim C9: computeNoAckDelayMs -/

/-- Claim C9 counterexample: for baseMs equal to 1 (which is positive)
the result is an exact multiple of baseMs, since every integer is a
multiple of 1; concretely the seed a yields 3, and 3 mod 1 is 0. -/
theorem computeNoAckDelayMs_multiple_cex :
    (0 : ℤ) < 1 ∧ Utils.computeNoAckDelayMs 1 "a" = 3 ∧
    Utils.computeNoAckDelayMs 1 "a" % 1 = 0 := by
  refine ⟨by decide, by with_unfolding_all decide, Int.emod_one _⟩

/-- Helper for claim C9: the hashed core of computeNoAckDelayMs
returns at least 1 and, for a base of at least 2, never an exact
multiple of the base. -/
theorem computeNoAckDelayMsFromHash_bounds (baseMs : ℤ) (h : ℕ)
    (h2 : 2 ≤ baseMs) :
    1 ≤ Utils.computeNoAckDelayMsFromHash baseMs h ∧
    Utils.computeNoAckDelayMsFromHash baseMs h % baseMs ≠ 0 := by
  unfold Utils.computeNoAckDelayMsFromHash
  set d0 : ℤ := Utils.noAckDelay0 baseMs h with hd0
  set bump : ℤ := Utils.noAckBump baseMs with hbump
  have hb0 : (0 : ℤ) < baseMs := by omega
  have hbump1 : 1 ≤ bump := le_max_left _ _
  have hbumplt : bump < baseMs := by
    have habs := abs_sub_round ((baseMs : ℚ) * Utils.float137)
    have hround : (round ((baseMs : ℚ) * Utils.float137) : ℚ) ≤
        (baseMs : ℚ) * Utils.float137 + 1/2 := by
      have hle := abs_le.mp habs
      linarith [hle.1]
    have hlt : (baseMs : ℚ) * Utils.float137 + 1/2 < (baseMs : ℚ) := by
      have hbq : (2 : ℚ) ≤ (baseMs : ℚ) := by exact_mod_cast h2
      rw [Utils.float137]
      nlinarith
    have hcast : (round ((baseMs : ℚ) * Utils.float137) : ℚ) < (baseMs : ℚ) :=
      lt_of_le_of_lt hround hlt
    have hrlt : round ((baseMs : ℚ) * Utils.float137) < baseMs := by exact_mod_cast hcast
    rw [hbump, Utils.noAckBump]
    omega
  have honemod : (1 : ℤ) % baseMs = 1 := Int.emod_eq_of_lt (by norm_num) (by omega)
  by_cases hcond : 0 < baseMs ∧ d0 % baseMs = 0
  · rw [if_pos hcond]
    have hbmod : bump % baseMs = bump := Int.emod_eq_of_lt (by omega) hbumplt
    have hmod : (d0 + bump) % baseMs = bump := by
      rw [Int.add_emod, hcond.2, zero_add, Int.emod_emod_of_dvd _ dvd_rfl, hbmod]
    constructor
    · exact le_max_left _ _
    · rcases le_or_lt 1 (d0 + bump) with hge | hlt
      · rw [max_eq_right hge, hmod]
        omega
      · rw [max_eq_left (by omega), honemod]
        omega
  · rw [if_neg hcond]
    have hd0mod : d0 % baseMs ≠ 0 := by
      intro hz
      exact hcond ⟨hb0, hz⟩
    constructor
    · exact le_max_left _ _
    · rcases le_or_lt 1 d0 with hge | hlt
      · rw [max_eq_right hge]
        exact hd0mod
      · rw [max_eq_left (by omega), honemod]
        omega

/-- Claim C9 (amended): for every baseMs of at least 2 the computed
no-ack delay is an integer of at least 1, is never an exact multiple
of baseMs, and depends on the seed only through its 32-bit hash, so
equal inputs (and even merely hash-equal seeds) yield equal outputs.
For baseMs equal to 1 every integer is trivially a multiple of
baseMs, as the counterexample records, so the never-a-multiple part
holds from 2 upward. -/
theorem computeNoAckDelayMs_amended (baseMs : ℤ) (seed seed2 : String)
    (h2 : 2 ≤ baseMs) (hh : Utils.hash32 seed2 = Utils.hash32 seed) :
    1 ≤ Utils.computeNoAckDelayMs baseMs seed ∧
    Utils.computeNoAckDelayMs baseMs seed % baseMs ≠ 0 ∧
    Utils.computeNoAckDelayMs baseMs seed2 = Utils.computeNoAckDelayMs baseMs seed := by
  obtain ⟨hge, hmod⟩ := computeNoAckDelayMsFromHash_bounds baseMs (Utils.hash32 seed) h2
  refine ⟨hge, hmod, ?_⟩
  unfold Utils.computeNoAckDelayMs
  rw [hh]

/-- Claim C9 witness: the amended statement evaluated at baseMs 2 and
the seed a (the computed delay there is 5). -/
theorem computeNoAckDelayMs_amended_witness :
    (2 : ℤ) ≤ 2 ∧ Utils.hash32 "a" = Utils.hash32 "a" ∧
    (1 ≤ Utils.computeNoAckDelayMs 2 "a" ∧
     Utils.computeNoAckDelayMs 2 "a" % 2 ≠ 0 ∧
     Utils.computeNoAckDelayMs 2 "a" = Utils.computeNoAckDelayMs 2 "a") := by
  exact ⟨by decide, rfl, computeNoAckDelayMs_amended 2 "a" "a" (by decide) rfl⟩

/-! ## Claim C6: worker task stop -/

/-- Claim C6: for a registered worker task, stop clears the
isRegistered flag and every pending timer; a second stop call is a
no-op, so stop is idempotent; and a loop firing that observes a task
that is no longer registered returns without scheduling another run
or pushing another timer. -/
theorem workerTask_stop_correct (s s2 : WorkerTaskBuilder.TaskState) (t : ℕ)
    (h : s.isRegistered = true) (h2 : s2.isRegistered = false) :
    (WorkerTaskBuilder.stop s).isRegistered = false ∧
    (WorkerTaskBuilder.stop s).timers = [] ∧
    WorkerTaskBuilder.stop (WorkerTaskBuilder.stop s) = WorkerTaskBuilder.stop s ∧
    WorkerTaskBuilder.loopStep s2 t = (s2, false) := by
  refine ⟨?_, ?_, ?_, ?_⟩
  · simp [WorkerTaskBuilder.stop, h]
  · simp [WorkerTaskBuilder.stop, h]
  · simp [WorkerTaskBuilder.stop, h]
  · simp [WorkerTaskBuilder.loopStep, h2]

/-- Claim C6 witness: the stop and loop behaviour evaluated on a
registered task holding one timer and on a stopped task. -/
theorem workerTask_stop_correct_witness :
    (WorkerTaskBuilder.TaskState.mk true [7]).isRegistered = true ∧
    (WorkerTaskBuilder.TaskState.mk false []).isRegistered = false ∧
    ((WorkerTaskBuilder.stop ⟨true, [7]⟩).isRegistered = false ∧
     (WorkerTaskBuilder.stop ⟨true, [7]⟩).timers = [] ∧
     WorkerTaskBuilder.stop (WorkerTaskBuilder.stop ⟨true, [7]⟩) =
       WorkerTaskBuilder.stop ⟨true, [7]⟩ ∧
     WorkerTaskBuilder.loopStep ⟨false, []⟩ 5 = (⟨false, []⟩, false)) := by
  exact ⟨rfl, rfl, workerTask_stop_correct ⟨true, [7]⟩ ⟨false, []⟩ 5 rfl rfl⟩

/-! ## Claim C10: connection factory client access -/

/-- Claim C10 counterexample: fabricate invoked with the reserved alias
name default stores the entry under the parsed name (here vanilla), so
even after fabricate has run, hasClient called with the very name that
was passed to fabricate still hits a missing map entry and fails.  The
environment has vanilla as the default connection, configured with the
registered vanilla driver, and the factory starts empty. -/
theorem connectionFactory_default_alias_cex :
    ConnectionFactory.fabricate
      { defaultConnection := "vanilla",
        connectionDriver := [("vanilla", "vanilla")],
        drivers := ["fake", "aws-sqs", "vanilla", "database"] }
      { connections := [] } "default" =
      some { state := { connections := [("vanilla", { client := none })] },
             driverName := "vanilla", con := "vanilla", client := none } ∧
    ConnectionFactory.hasClient
      { connections := [("vanilla", { client := none })] } "default" = none := by
  exact ⟨by decide, by decide⟩

/-- Claim C10 (amended): hasClient and getClient fail (dereferencing
the client field of a missing map entry) exactly for names absent from
the connections map, in particular for names never passed to fabricate
or setClient; after a successful fabricate(name) both calls return
without error for any name other than the reserved alias default,
which fabricate first resolves to the configured default connection
before storing the entry. -/
theorem connectionFactory_client_access (env : ConnectionFactory.Env)
    (st : ConnectionFactory.FState) (con : String)
    (res : ConnectionFactory.FabResult)
    (hmiss : qget st.connections con = none)
    (hfab : ConnectionFactory.fabricate env st con = some res)
    (hne : con ≠ "default") :
    ConnectionFactory.hasClient st con = none ∧
    ConnectionFactory.getClient st con = none ∧
    (ConnectionFactory.hasClient res.state con).isSome = true ∧
    (ConnectionFactory.getClient res.state con).isSome = true := by
  refine ⟨?_, ?_, ?_, ?_⟩
  · simp [ConnectionFactory.hasClient, hmiss]
  · simp [ConnectionFactory.getClient, hmiss]
  all_goals
    simp only [ConnectionFactory.fabricate, ConnectionFactory.parseConName,
      if_neg hne] at hfab
    cases hdrv : ConnectionFactory.getConnectionDriver env con with
    | none => rw [hdrv] at hfab; simp at hfab
    | some dn =>
      rw [hdrv, hmiss] at hfab
      obtain rfl := (Option.some.inj hfab).symm
      simp [ConnectionFactory.hasClient, ConnectionFactory.getClient, qget_qset_self]

/-- Claim C10 witness: the amended statement evaluated on an empty
factory, the vanilla environment and the connection name vanilla. -/
theorem connectionFactory_client_access_witness :
    qget (ConnectionFactory.FState.mk []).connections "vanilla" = none ∧
    ConnectionFactory.fabricate
      { defaultConnection := "vanilla",
        connectionDriver := [("vanilla", "vanilla")],
        drivers := ["fake", "aws-sqs", "vanilla", "database"] }
      { connections := [] } "vanilla" =
      some { state := { connections := [("vanilla", { client := none })] },
             driverName := "vanilla", con := "vanilla", client := none } ∧
    "vanilla" ≠ "default" ∧
    (ConnectionFactory.hasClient { connections := [] } "vanilla" = none ∧
     ConnectionFactory.getClient { connections := [] } "vanilla" = none ∧
     (ConnectionFactory.hasClient
       { state := { connections := [("vanilla", { client := none })] },
         driverName := "vanilla", con := "vanilla",
         client := none : ConnectionFactory.FabResult }.state "vanilla").isSome = true ∧
     (ConnectionFactory.getClient
       { state := { connections := [("vanilla", { client := none })] },
         driverName := "vanilla", con := "vanilla",
         client := none : ConnectionFactory.FabResult }.state "vanilla").isSome = true) := by
  refine ⟨by decide, by decide, by decide, ?_⟩
  exact connectionFactory_client_access
    { defaultConnection := "vanilla",
      connectionDriver := [("vanilla", "vanilla")],
      drivers := ["fake", "aws-sqs", "vanilla", "database"] }
    { connections := [] } "vanilla"
    { state := { connections := [("vanilla", { client := none })] },
      driverName := "vanilla", con := "vanilla", client := none }
    (by decide) (by decide) (by decide)

/-! ## Claim C8: basic round trip on the memory driver -/

theorem ensure2_fst {α : Type} (m : QMap (List α)) (k1 k2 : String) :
    qget (ensureKey (ensureKey m k1 []) k2 []) k1 = some ((qget m k1).getD []) := by
  by_cases h : k2 = k1
  · subst h
    rw [qget_ensureKey_self, qget_ensureKey_self]
    simp
  · rw [qget_ensureKey_ne _ _ _ _ h, qget_ensureKey_self]

theorem ensure2_snd {α : Type} (m : QMap (List α)) (k1 k2 : String) :
    (qget (ensureKey (ensureKey m k1 []) k2 []) k2).isSome = true := by
  rw [qget_ensureKey_self]
  rfl

theorem ensure2_of_some {α : Type} (m : QMap (List α)) (k1 k2 : String)
    (h1 : (qget m k1).isSome = true) (h2 : (qget m k2).isSome = true) :
    ensureKey (ensureKey m k1 []) k2 [] = m := by
  obtain ⟨v1, hv1⟩ := Option.isSome_iff_exists.mp h1
  obtain ⟨v2, hv2⟩ := Option.isSome_iff_exists.mp h2
  rw [ensureKey_of_some m k1 [] v1 hv1, ensureKey_of_some m k2 [] v2 hv2]

theorem MemoryDriver.qget_defineQueue_queueName (cfg : DriverConfig)
    (st : MemoryDriver.State) :
    qget (MemoryDriver.defineQueue cfg st).queues cfg.queueName =
      some ((qget st.queues cfg.queueName).getD []) := by
  unfold MemoryDriver.defineQueue
  exact ensure2_fst _ _ _

theorem MemoryDriver.qget_defineQueue_dl (cfg : DriverConfig)
    (st : MemoryDriver.State) :
    (qget (MemoryDriver.defineQueue cfg st).queues (dlKey cfg.deadletter)).isSome = true := by
  unfold MemoryDriver.defineQueue
  exact ensure2_snd _ _ _

theorem MemoryDriver.defineQueue_of_keys (cfg : DriverConfig)
    (st : MemoryDriver.State)
    (h1 : (qget st.queues cfg.queueName).isSome = true)
    (h2 : (qget st.queues (dlKey cfg.deadletter)).isSome = true) :
    MemoryDriver.defineQueue cfg st = st := by
  unfold MemoryDriver.defineQueue
  rw [ensure2_of_some _ _ _ h1 h2]

/-- Claim C8: starting from a driver state with no queues, adding a
payload and then popping returns a job whose data field equals the
added payload (and whose attempt budget, clock fields and lease field
are as initialized by add), and the queue length afterwards is 0. -/
theorem memory_add_pop_roundtrip (cfg : DriverConfig) (acked : List String)
    (now : ℚ) (id data : String) :
    (MemoryDriver.pop cfg
        (MemoryDriver.add cfg { queues := [], ackedIds := acked } now id data)).1 =
      some { id := id, attempts := cfg.attempts, availableAt := now,
             reservedUntil := none, createdAt := now, data := data } ∧
    MemoryDriver.length cfg
      (MemoryDriver.pop cfg
        (MemoryDriver.add cfg { queues := [], ackedIds := acked } now id data)).2 = 0 := by
  set st0 : MemoryDriver.State := { queues := [], ackedIds := acked } with hst0
  set newJob : MemoryDriver.Job :=
    { id := id, attempts := cfg.attempts, availableAt := now,
      reservedUntil := none, createdAt := now, data := data } with hnj
  have hq0 : qget (MemoryDriver.defineQueue cfg st0).queues cfg.queueName = some [] := by
    rw [MemoryDriver.qget_defineQueue_queueName]
    rfl
  have hcur0 : MemoryDriver.currentQueue cfg (MemoryDriver.defineQueue cfg st0) = [] := by
    rw [MemoryDriver.currentQueue, hq0]
    rfl
  have hadd : MemoryDriver.add cfg st0 now id data =
      { queues := qset (MemoryDriver.defineQueue cfg st0).queues cfg.queueName [newJob],
        ackedIds := acked } := by
    rw [MemoryDriver.add, hcur0]
    rfl
  set st1 := MemoryDriver.add cfg st0 now id data with hst1
  have hq1 : qget st1.queues cfg.queueName = some [newJob] := by
    rw [hadd]
    exact qget_qset_self _ _ _
  have hdl1 : (qget st1.queues (dlKey cfg.deadletter)).isSome = true := by
    by_cases hdk : dlKey cfg.deadletter = cfg.queueName
    · rw [hdk, hq1]
      rfl
    · rw [hadd]
      show (qget (qset (MemoryDriver.defineQueue cfg st0).queues cfg.queueName [newJob])
        (dlKey cfg.deadletter)).isSome = true
      rw [qget_qset_ne _ _ _ _ (fun h => hdk h.symm)]
      exact MemoryDriver.qget_defineQueue_dl cfg st0
  have hdef1 : MemoryDriver.defineQueue cfg st1 = st1 :=
    MemoryDriver.defineQueue_of_keys cfg st1 (by rw [hq1]; rfl) hdl1
  have hpop : MemoryDriver.pop cfg st1 =
      (some newJob, { st1 with queues := qset st1.queues cfg.queueName [] }) := by
    rw [MemoryDriver.pop, hdef1]
    have hc : MemoryDriver.currentQueue cfg st1 = [newJob] := by
      rw [MemoryDriver.currentQueue, hq1]
      rfl
    rw [hc]
  refine ⟨by rw [hpop], ?_⟩
  rw [hpop]
  set st2 : MemoryDriver.State :=
    { st1 with queues := qset st1.queues cfg.queueName [] } with hst2
  have hq2 : qget st2.queues cfg.queueName = some [] := qget_qset_self _ _ _
  have hdl2 : (qget st2.queues (dlKey cfg.deadletter)).isSome = true := by
    by_cases hdk : dlKey cfg.deadletter = cfg.queueName
    · rw [hdk, hq2]
      rfl
    · show (qget (qset st1.queues cfg.queueName []) (dlKey cfg.deadletter)).isSome = true
      rw [qget_qset_ne _ _ _ _ (fun h => hdk h.symm)]
      exact hdl1
  have hdef2 : MemoryDriver.defineQueue cfg st2 = st2 :=
    MemoryDriver.defineQueue_of_keys cfg st2 (by rw [hq2]; rfl) hdl2
  rw [MemoryDriver.length, hdef2, MemoryDriver.currentQueue, hq2]
  rfl

/-! ## Claim C5: peek eligibility -/

/-- Eligibility predicate as the specification states it: availableAt
at most now, and reservedUntil null or at most now. -/
def MemoryDriver.specEligible (now : ℚ) (j : MemoryDriver.Job) : Bool :=
  decide (j.availableAt ≤ now) &&
    (match j.reservedUntil with
     | none => true
     | some t => decide (t ≤ now))

theorem MemoryDriver.eligibleAt_releaseJob (now : ℚ) (j : MemoryDriver.Job)
    (hnow : 0 ≤ now) :
    MemoryDriver.eligibleAt now (MemoryDriver.releaseJob now j) =
      MemoryDriver.specEligible now j := by
  obtain ⟨id, att, avail, ru, cr, data, fq⟩ := j
  cases ru with
  | none => rfl
  | some t =>
    by_cases hz : t = 0
    · subst hz
      have h1 : ¬((0 : ℚ) ≠ 0 ∧ (0 : ℚ) ≤ now) := by simp
      simp [MemoryDriver.releaseJob, MemoryDriver.eligibleAt, MemoryDriver.specEligible,
        numTruthy, h1, hnow]
    · by_cases hle : t ≤ now
      · have h1 : t ≠ 0 ∧ t ≤ now := ⟨hz, hle⟩
        simp [MemoryDriver.releaseJob, MemoryDriver.eligibleAt, MemoryDriver.specEligible,
          numTruthy, h1, hle]
      · have h1 : ¬(t ≠ 0 ∧ t ≤ now) := fun h => hle h.2
        simp [MemoryDriver.releaseJob, MemoryDriver.eligibleAt, MemoryDriver.specEligible,
          numTruthy, h1, hz, hle]

theorem MemoryDriver.eligibleAt_imp_spec (now : ℚ) (j : MemoryDriver.Job)
    (hnow : 0 ≤ now) (h : MemoryDriver.eligibleAt now j = true) :
    MemoryDriver.specEligible now j = true := by
  obtain ⟨id, att, avail, ru, cr, data, fq⟩ := j
  cases ru with
  | none => simpa [MemoryDriver.eligibleAt, MemoryDriver.specEligible, numTruthy] using h
  | some t =>
    simp only [MemoryDriver.eligibleAt, numTruthy, Bool.and_eq_true, Bool.not_eq_true',
      decide_eq_false_iff_not, not_not] at h
    obtain ⟨ha, ht⟩ := h
    subst ht
    simp [MemoryDriver.specEligible, ha, hnow]

theorem MemoryDriver.currentQueue_peekState (cfg : DriverConfig)
    (st : MemoryDriver.State) (now : ℚ) :
    MemoryDriver.currentQueue cfg (MemoryDriver.peekState cfg st now) =
      (MemoryDriver.currentQueue cfg (MemoryDriver.defineQueue cfg st)).map
        (MemoryDriver.releaseJob now) := by
  unfold MemoryDriver.peekState MemoryDriver.releaseExpiredLeases
  show (qget (qmodify (MemoryDriver.defineQueue cfg st).queues cfg.queueName
      (List.map (MemoryDriver.releaseJob now))) cfg.queueName).getD [] = _
  rw [qget_qmodify_self, MemoryDriver.qget_defineQueue_queueName]
  unfold MemoryDriver.currentQueue
  rw [MemoryDriver.qget_defineQueue_queueName]
  rfl

theorem MemoryDriver.peek_none_iff (cfg : DriverConfig) (st : MemoryDriver.State)
    (now : ℚ) (hnow : 0 ≤ now) :
    MemoryDriver.peek cfg st now = none ↔
      ∀ x ∈ MemoryDriver.currentQueue cfg (MemoryDriver.defineQueue cfg st),
        MemoryDriver.specEligible now x = false := by
  simp only [MemoryDriver.peek, MemoryDriver.peekWithIdx]
  rw [MemoryDriver.currentQueue_peekState]
  set q0 := MemoryDriver.currentQueue cfg (MemoryDriver.defineQueue cfg st) with hq0
  by_cases hemp : q0 = []
  · simp [hemp]
  · have hne : (q0.map (MemoryDriver.releaseJob now)).isEmpty = false := by
      simp [List.isEmpty_iff, hemp]
    rw [hne]
    simp only [Bool.false_eq_true, if_false, Option.map_eq_none']
    rw [findWithIdx_none_iff]
    constructor
    · intro hall x hx
      rw [← MemoryDriver.eligibleAt_releaseJob now x hnow]
      exact hall _ (List.mem_map_of_mem _ hx)
    · intro hall y hy
      obtain ⟨x, hx, rfl⟩ := List.mem_map.mp hy
      rw [MemoryDriver.eligibleAt_releaseJob now x hnow]
      exact hall x hx

theorem MemoryDriver.peek_some_spec (cfg : DriverConfig) (st : MemoryDriver.State)
    (now : ℚ) (j : MemoryDriver.Job) (hnow : 0 ≤ now)
    (h : MemoryDriver.peek cfg st now = some j) :
    MemoryDriver.specEligible now j = true := by
  simp only [MemoryDriver.peek, MemoryDriver.peekWithIdx] at h
  by_cases hemp : (MemoryDriver.currentQueue cfg (MemoryDriver.peekState cfg st now)).isEmpty
  · rw [hemp] at h
    simp at h
  · rw [Bool.not_eq_true] at hemp
    rw [hemp] at h
    simp only [Bool.false_eq_true, if_false] at h
    cases hfi : findWithIdx (MemoryDriver.eligibleAt now)
        (MemoryDriver.currentQueue cfg (MemoryDriver.peekState cfg st now)) with
    | none =>
      rw [hfi] at h
      simp at h
    | some x =>
      rw [hfi] at h
      simp only [Option.map_some', Option.some.injEq] at h
      subst h
      exact MemoryDriver.eligibleAt_imp_spec now _ hnow
        (findWithIdx_some _ _ x.1 x.2 (by rw [hfi])).1

/-- Eligibility predicate of the claim for table rows: availableAt at
most now, and reservedUntil NULL or at most now. -/
def DatabaseDriver.specEligible (now : ℚ) (r : DatabaseDriver.Row) : Bool :=
  decide (r.availableAt ≤ now) &&
    (match r.reservedUntil with
     | none => true
     | some t => decide (t ≤ now))

theorem DatabaseDriver.eligibleAt_eq (cfg : DriverConfig) (now : ℚ)
    (r : DatabaseDriver.Row) :
    DatabaseDriver.eligibleAt cfg now r =
      (decide (r.queue = cfg.queueName) && DatabaseDriver.specEligible now r) := by
  obtain ⟨id, q, att, avail, ru, cr, data⟩ := r
  cases ru with
  | none =>
    simp [DatabaseDriver.eligibleAt, DatabaseDriver.specEligible,
      DatabaseDriver.reservedLe, Bool.and_assoc]
  | some t =>
    simp [DatabaseDriver.eligibleAt, DatabaseDriver.specEligible,
      DatabaseDriver.reservedLe, Bool.and_assoc]

theorem DatabaseDriver.eligibleAt_release (cfg : DriverConfig) (now : ℚ)
    (r : DatabaseDriver.Row) :
    DatabaseDriver.eligibleAt cfg now
      (if decide (r.queue = cfg.queueName) && DatabaseDriver.reservedLe r now
       then { r with reservedUntil := none } else r) =
      DatabaseDriver.eligibleAt cfg now r := by
  by_cases hp : (decide (r.queue = cfg.queueName) && DatabaseDriver.reservedLe r now) = true
  · rw [if_pos hp]
    simp only [Bool.and_eq_true, decide_eq_true_eq] at hp
    obtain ⟨hq, hle⟩ := hp
    obtain ⟨id, q, att, avail, ru, cr, data⟩ := r
    cases ru with
    | none => simp [DatabaseDriver.reservedLe] at hle
    | some t =>
      simp only [DatabaseDriver.reservedLe, decide_eq_true_eq] at hle
      simp [DatabaseDriver.eligibleAt, DatabaseDriver.reservedLe, hle]
  · rw [if_neg hp]

theorem DatabaseDriver.selectFirst_eq_none_iff (l : List DatabaseDriver.Row) :
    DatabaseDriver.selectFirst l = none ↔ l = [] := by
  cases l with
  | nil => simp [DatabaseDriver.selectFirst]
  | cons r rest =>
    simp only [DatabaseDriver.selectFirst]
    cases hrec : DatabaseDriver.selectFirst rest with
    | none => simp
    | some m =>
      constructor
      · intro h
        by_cases hk : DatabaseDriver.rowKeyLe r m = true
        · simp [hk] at h
        · rw [Bool.not_eq_true] at hk
          simp [hk] at h
      · intro h
        exact absurd h (by simp)

theorem DatabaseDriver.selectFirst_mem (l : List DatabaseDriver.Row)
    (r : DatabaseDriver.Row) (h : DatabaseDriver.selectFirst l = some r) : r ∈ l := by
  induction l generalizing r with
  | nil => simp [DatabaseDriver.selectFirst] at h
  | cons a rest ih =>
    simp only [DatabaseDriver.selectFirst] at h
    cases hrec : DatabaseDriver.selectFirst rest with
    | none =>
      rw [hrec] at h
      simp only [Option.some.injEq] at h
      subst h
      exact List.mem_cons_self _ _
    | some m =>
      rw [hrec] at h
      by_cases hk : DatabaseDriver.rowKeyLe a m = true
      · simp only [hk, if_true, Option.some.injEq] at h
        subst h
        exact List.mem_cons_self _ _
      · rw [Bool.not_eq_true] at hk
        simp only [hk, Bool.false_eq_true, if_false, Option.some.injEq] at h
        subst h
        exact List.mem_cons_of_mem _ (ih m hrec)

theorem DatabaseDriver.peek_fst (cfg : DriverConfig) (st : DatabaseDriver.State)
    (now : ℚ) :
    (DatabaseDriver.peek cfg st now).1 =
      DatabaseDriver.selectFirst
        ((st.table.map (fun r =>
          if decide (r.queue = cfg.queueName) && DatabaseDriver.reservedLe r now
          then { r with reservedUntil := none } else r)).filter
          (DatabaseDriver.eligibleAt cfg now)) := rfl

theorem DatabaseDriver.db_peek_none_iff (cfg : DriverConfig) (st : DatabaseDriver.State)
    (now : ℚ) :
    (DatabaseDriver.peek cfg st now).1 = none ↔
      ∀ r ∈ st.table, DatabaseDriver.eligibleAt cfg now r = false := by
  rw [DatabaseDriver.peek_fst, DatabaseDriver.selectFirst_eq_none_iff,
    List.filter_eq_nil_iff]
  constructor
  · intro hall r hr
    have := hall _ (List.mem_map_of_mem _ hr)
    rwa [DatabaseDriver.eligibleAt_release, Bool.not_eq_true] at this
  · intro hall x hx
    obtain ⟨r, hr, rfl⟩ := List.mem_map.mp hx
    rw [Bool.not_eq_true, DatabaseDriver.eligibleAt_release]
    exact hall r hr

theorem DatabaseDriver.peek_some_elig (cfg : DriverConfig) (st : DatabaseDriver.State)
    (now : ℚ) (r : DatabaseDriver.Row)
    (h : (DatabaseDriver.peek cfg st now).1 = some r) :
    DatabaseDriver.eligibleAt cfg now r = true := by
  rw [DatabaseDriver.peek_fst] at h
  have hmem := DatabaseDriver.selectFirst_mem _ _ h
  exact (List.mem_filter.mp hmem).2

/-- Claim C5: the lease-selection operation peek (which first releases
expired leases) returns a job only if that job satisfies the
eligibility predicate availableAt at most now and reservedUntil null
or at most now, and returns none exactly when no job of the queue
satisfies that predicate; this holds for the memory driver and, with
rows restricted to the configured queue, for the database driver. -/
theorem peek_eligibility (cfg : DriverConfig) (mst : MemoryDriver.State)
    (dst : DatabaseDriver.State) (now : ℚ) (j x : MemoryDriver.Job)
    (r row : DatabaseDriver.Row) (hnow : 0 ≤ now) :
    (MemoryDriver.peek cfg mst now = some j →
      MemoryDriver.specEligible now j = true) ∧
    (MemoryDriver.peek cfg mst now = none →
      x ∈ MemoryDriver.currentQueue cfg (MemoryDriver.defineQueue cfg mst) →
      MemoryDriver.specEligible now x = false) ∧
    (x ∈ MemoryDriver.currentQueue cfg (MemoryDriver.defineQueue cfg mst) →
      MemoryDriver.specEligible now x = true →
      (MemoryDriver.peek cfg mst now).isSome = true) ∧
    ((DatabaseDriver.peek cfg dst now).1 = some r →
      r.queue = cfg.queueName ∧ DatabaseDriver.specEligible now r = true) ∧
    ((DatabaseDriver.peek cfg dst now).1 = none → row ∈ dst.table →
      row.queue = cfg.queueName → DatabaseDriver.specEligible now row = false) ∧
    (row ∈ dst.table → row.queue = cfg.queueName →
      DatabaseDriver.specEligible now row = true →
      ((DatabaseDriver.peek cfg dst now).1).isSome = true) := by
  refine ⟨?_, ?_, ?_, ?_, ?_, ?_⟩
  · exact MemoryDriver.peek_some_spec cfg mst now j hnow
  · intro hnone hx
    exact (MemoryDriver.peek_none_iff cfg mst now hnow).mp hnone x hx
  · intro hx hspec
    cases hp : MemoryDriver.peek cfg mst now with
    | some y => rfl
    | none =>
      have := (MemoryDriver.peek_none_iff cfg mst now hnow).mp hp x hx
      rw [hspec] at this
      exact absurd this (by simp)
  · intro hsome
    have helig := DatabaseDriver.peek_some_elig cfg dst now r hsome
    rw [DatabaseDriver.eligibleAt_eq] at helig
    simp only [Bool.and_eq_true, decide_eq_true_eq] at helig
    exact helig
  · intro hnone hrow hq
    have := (DatabaseDriver.db_peek_none_iff cfg dst now).mp hnone row hrow
    rw [DatabaseDriver.eligibleAt_eq] at this
    simp only [Bool.and_eq_false_iff, decide_eq_false_iff_not] at this
    rcases this with hcon | hspec
    · exact absurd hq hcon
    · exact hspec
  · intro hrow hq hspec
    cases hp : (DatabaseDriver.peek cfg dst now).1 with
    | some y => rfl
    | none =>
      have := (DatabaseDriver.db_peek_none_iff cfg dst now).mp hp row hrow
      rw [DatabaseDriver.eligibleAt_eq] at this
      simp [hq, hspec] at this

/-- Concrete driver configuration used by witnesses. -/
def cfgW : DriverConfig :=
  { queueName := "q", deadletter := some "dlq", attempts := 2, backoff := none,
    workerInterval := 1000, visibilityTimeout := 5000, noAckDelayMs := 300 }

/-- Concrete eligible memory job used by witnesses. -/
def jobW : MemoryDriver.Job :=
  { id := "j1", attempts := 2, availableAt := 0, reservedUntil := none,
    createdAt := 0, data := "payload" }

/-- Concrete memory state holding one eligible job. -/
def mstW : MemoryDriver.State :=
  { queues := [("q", [jobW]), ("dlq", [])], ackedIds := [] }

/-- Concrete eligible table row used by witnesses. -/
def rowW : DatabaseDriver.Row :=
  { id := "r1", queue := "q", attempts := 2, availableAt := 0,
    reservedUntil := none, createdAt := 0, data := "payload" }

/-- Concrete database state holding one eligible row. -/
def dstW : DatabaseDriver.State := { table := [rowW], ackedIds := [] }

/-- Claim C5 witness: the eligibility statement evaluated at time 0 on
the one-job memory state and the one-row database state. -/
theorem peek_eligibility_witness :
    (0 : ℚ) ≤ 0 ∧
    ((MemoryDriver.peek cfgW mstW 0 = some jobW →
      MemoryDriver.specEligible 0 jobW = true) ∧
    (MemoryDriver.peek cfgW mstW 0 = none →
      jobW ∈ MemoryDriver.currentQueue cfgW (MemoryDriver.defineQueue cfgW mstW) →
      MemoryDriver.specEligible 0 jobW = false) ∧
    (jobW ∈ MemoryDriver.currentQueue cfgW (MemoryDriver.defineQueue cfgW mstW) →
      MemoryDriver.specEligible 0 jobW = true →
      (MemoryDriver.peek cfgW mstW 0).isSome = true) ∧
    ((DatabaseDriver.peek cfgW dstW 0).1 = some rowW →
      rowW.queue = cfgW.queueName ∧ DatabaseDriver.specEligible 0 rowW = true) ∧
    ((DatabaseDriver.peek cfgW dstW 0).1 = none → rowW ∈ dstW.table →
      rowW.queue = cfgW.queueName → DatabaseDriver.specEligible 0 rowW = false) ∧
    (rowW ∈ dstW.table → rowW.queue = cfgW.queueName →
      DatabaseDriver.specEligible 0 rowW = true →
      ((DatabaseDriver.peek cfgW dstW 0).1).isSome = true)) := by
  exact ⟨by with_unfolding_all decide,
    peek_eligibility cfgW mstW dstW 0 jobW jobW rowW rowW (by with_unfolding_all decide)⟩

/-! ## Claim C4: ack behaviour -/

theorem VanillaDriver.vanilla_qget_defineQueue_queueName (cfg : DriverConfig)
    (st : VanillaDriver.State) :
    qget (VanillaDriver.defineQueue cfg st).queues cfg.queueName =
      some ((qget st.queues cfg.queueName).getD []) := by
  unfold VanillaDriver.defineQueue
  exact ensure2_fst _ _ _

theorem VanillaDriver.vanilla_qget_defineQueue_dl (cfg : DriverConfig)
    (st : VanillaDriver.State) :
    (qget (VanillaDriver.defineQueue cfg st).queues (dlKey cfg.deadletter)).isSome = true := by
  unfold VanillaDriver.defineQueue
  exact ensure2_snd _ _ _

theorem VanillaDriver.vanilla_defineQueue_of_keys (cfg : DriverConfig)
    (st : VanillaDriver.State)
    (h1 : (qget st.queues cfg.queueName).isSome = true)
    (h2 : (qget st.queues (dlKey cfg.deadletter)).isSome = true) :
    VanillaDriver.defineQueue cfg st = st := by
  unfold VanillaDriver.defineQueue
  rw [ensure2_of_some _ _ _ h1 h2]

theorem MemoryDriver.ack_of_not_found (cfg : DriverConfig)
    (st : MemoryDriver.State) (id : String)
    (h : ∀ y ∈ MemoryDriver.currentQueue cfg (MemoryDriver.defineQueue cfg st),
      y.id ≠ id) :
    MemoryDriver.ack cfg st id = MemoryDriver.defineQueue cfg st := by
  have hrm : removeFirstP (fun j => j.id = id)
      (MemoryDriver.currentQueue cfg (MemoryDriver.defineQueue cfg st)) = none := by
    rw [removeFirstP_none_iff]
    intro x hx
    simpa using h x hx
  simp only [MemoryDriver.ack]
  rw [hrm]

theorem VanillaDriver.ack_of_not_leased (cfg : DriverConfig)
    (st : VanillaDriver.State) (id : String)
    (h : ∀ y ∈ VanillaDriver.currentQueue cfg (VanillaDriver.defineQueue cfg st),
      ¬(y.id = id ∧ y.status = VanillaDriver.JobStatus.processing)) :
    VanillaDriver.ack cfg st id = VanillaDriver.defineQueue cfg st := by
  have hrm : removeFirstP (fun j => j.id = id ∧ j.status = VanillaDriver.JobStatus.processing)
      (VanillaDriver.currentQueue cfg (VanillaDriver.defineQueue cfg st)) = none := by
    rw [removeFirstP_none_iff]
    intro x hx
    simpa using h x hx
  simp only [VanillaDriver.ack]
  rw [hrm]

theorem MemoryDriver.ack_ack (cfg : DriverConfig) (st : MemoryDriver.State)
    (id : String)
    (hnodup : ((MemoryDriver.currentQueue cfg (MemoryDriver.defineQueue cfg st)).map
      MemoryDriver.Job.id).Nodup) :
    MemoryDriver.ack cfg (MemoryDriver.ack cfg st id) id = MemoryDriver.ack cfg st id := by
  cases hrm : removeFirstP (fun j => j.id = id)
      (MemoryDriver.currentQueue cfg (MemoryDriver.defineQueue cfg st)) with
  | none =>
    have h1 : MemoryDriver.ack cfg st id = MemoryDriver.defineQueue cfg st := by
      simp only [MemoryDriver.ack]
      rw [hrm]
    rw [h1]
    have hdd : MemoryDriver.defineQueue cfg (MemoryDriver.defineQueue cfg st) =
        MemoryDriver.defineQueue cfg st :=
      MemoryDriver.defineQueue_of_keys cfg _
        (by rw [MemoryDriver.qget_defineQueue_queueName]; rfl)
        (MemoryDriver.qget_defineQueue_dl cfg st)
    simp only [MemoryDriver.ack]
    rw [hdd, hrm]
  | some q' =>
    have h1 : MemoryDriver.ack cfg st id =
        { queues := qset (MemoryDriver.defineQueue cfg st).queues cfg.queueName q',
          ackedIds := if (MemoryDriver.defineQueue cfg st).ackedIds.contains id
                      then (MemoryDriver.defineQueue cfg st).ackedIds
                      else (MemoryDriver.defineQueue cfg st).ackedIds ++ [id] } := by
      simp only [MemoryDriver.ack]
      rw [hrm]
    set st1 := MemoryDriver.ack cfg st id with hst1
    have hq1 : qget st1.queues cfg.queueName = some q' := by
      rw [h1]
      exact qget_qset_self _ _ _
    have hdl1 : (qget st1.queues (dlKey cfg.deadletter)).isSome = true := by
      by_cases hdk : dlKey cfg.deadletter = cfg.queueName
      · rw [hdk, hq1]
        rfl
      · rw [h1]
        show (qget (qset (MemoryDriver.defineQueue cfg st).queues cfg.queueName q')
          (dlKey cfg.deadletter)).isSome = true
        rw [qget_qset_ne _ _ _ _ (fun h => hdk h.symm)]
        exact MemoryDriver.qget_defineQueue_dl cfg st
    have hdef1 : MemoryDriver.defineQueue cfg st1 = st1 :=
      MemoryDriver.defineQueue_of_keys cfg st1 (by rw [hq1]; rfl) hdl1
    have habsent : ∀ y ∈ q', y.id ≠ id :=
      removeFirstP_absent_key _ MemoryDriver.Job.id id _ q' hnodup
        (fun x hx => by simpa using hx) hrm
    have hrm2 : removeFirstP (fun j => j.id = id)
        (MemoryDriver.currentQueue cfg (MemoryDriver.defineQueue cfg st1)) = none := by
      rw [hdef1]
      have hc : MemoryDriver.currentQueue cfg st1 = q' := by
        rw [MemoryDriver.currentQueue, hq1]
        rfl
      rw [hc, removeFirstP_none_iff]
      intro x hx
      simpa using habsent x hx
    simp only [MemoryDriver.ack]
    rw [hrm2, hdef1]

theorem VanillaDriver.vanilla_ack_ack (cfg : DriverConfig) (st : VanillaDriver.State)
    (id : String)
    (hnodup : ((VanillaDriver.currentQueue cfg (VanillaDriver.defineQueue cfg st)).map
      VanillaDriver.Job.id).Nodup) :
    VanillaDriver.ack cfg (VanillaDriver.ack cfg st id) id = VanillaDriver.ack cfg st id := by
  cases hrm : removeFirstP (fun j => j.id = id ∧ j.status = VanillaDriver.JobStatus.processing)
      (VanillaDriver.currentQueue cfg (VanillaDriver.defineQueue cfg st)) with
  | none =>
    have h1 : VanillaDriver.ack cfg st id = VanillaDriver.defineQueue cfg st := by
      simp only [VanillaDriver.ack]
      rw [hrm]
    rw [h1]
    have hdd : VanillaDriver.defineQueue cfg (VanillaDriver.defineQueue cfg st) =
        VanillaDriver.defineQueue cfg st :=
      VanillaDriver.vanilla_defineQueue_of_keys cfg _
        (by rw [VanillaDriver.vanilla_qget_defineQueue_queueName]; rfl)
        (VanillaDriver.vanilla_qget_defineQueue_dl cfg st)
    simp only [VanillaDriver.ack]
    rw [hdd, hrm]
  | some q' =>
    have h1 : VanillaDriver.ack cfg st id =
        { queues := qset (VanillaDriver.defineQueue cfg st).queues cfg.queueName q',
          ackedIds := if (VanillaDriver.defineQueue cfg st).ackedIds.contains id
                      then (VanillaDriver.defineQueue cfg st).ackedIds
                      else (VanillaDriver.defineQueue cfg st).ackedIds ++ [id] } := by
      simp only [VanillaDriver.ack]
      rw [hrm]
    set st1 := VanillaDriver.ack cfg st id with hst1
    have hq1 : qget st1.queues cfg.queueName = some q' := by
      rw [h1]
      exact qget_qset_self _ _ _
    have hdl1 : (qget st1.queues (dlKey cfg.deadletter)).isSome = true := by
      by_cases hdk : dlKey cfg.deadletter = cfg.queueName
      · rw [hdk, hq1]
        rfl
      · rw [h1]
        show (qget (qset (VanillaDriver.defineQueue cfg st).queues cfg.queueName q')
          (dlKey cfg.deadletter)).isSome = true
        rw [qget_qset_ne _ _ _ _ (fun h => hdk h.symm)]
        exact VanillaDriver.vanilla_qget_defineQueue_dl cfg st
    have hdef1 : VanillaDriver.defineQueue cfg st1 = st1 :=
      VanillaDriver.vanilla_defineQueue_of_keys cfg st1 (by rw [hq1]; rfl) hdl1
    have habsent : ∀ y ∈ q', y.id ≠ id :=
      removeFirstP_absent_key _ VanillaDriver.Job.id id _ q' hnodup
        (fun x hx => by
          simp only [decide_eq_true_eq] at hx
          exact hx.1) hrm
    have hrm2 : removeFirstP (fun j => j.id = id ∧ j.status = VanillaDriver.JobStatus.processing)
        (VanillaDriver.currentQueue cfg (VanillaDriver.defineQueue cfg st1)) = none := by
      rw [hdef1]
      have hc : VanillaDriver.currentQueue cfg st1 = q' := by
        rw [VanillaDriver.currentQueue, hq1]
        rfl
      rw [hc, removeFirstP_none_iff]
      intro x hx
      simp only [decide_eq_false_iff_not]
      intro hcon
      exact habsent x hx hcon.1
    simp only [VanillaDriver.ack]
    rw [hrm2, hdef1]

/-- Claim C4 counterexample: in the memory driver, ack of a job id that
exists but is not currently leased (reservedUntil is null) is not a
no-op: the job is removed from the queue, so the queue contents
change.  Only the vanilla driver checks the lease status. -/
theorem memoryAck_unleased_removes_cex :
    jobW.reservedUntil = none ∧
    qget mstW.queues "q" = some [jobW] ∧
    qget (MemoryDriver.ack cfgW mstW "j1").queues "q" = some [] := by
  refine ⟨rfl, rfl, by with_unfolding_all decide⟩

/-- Concrete vanilla job in pending status used by witnesses. -/
def vjobPendW : VanillaDriver.Job :=
  { id := "j1", status := .pending, attemptsLeft := 2, availableAt := 0,
    leaseUntil := none, data := "payload" }

/-- Concrete vanilla job in processing (leased) status used by
witnesses. -/
def vjobProcW : VanillaDriver.Job :=
  { id := "j1", status := .processing, attemptsLeft := 1, availableAt := 0,
    leaseUntil := some 5000, data := "payload" }

/-- Concrete vanilla state with one pending job. -/
def vstPendW : VanillaDriver.State :=
  { queues := [("q", [vjobPendW]), ("dlq", [])], ackedIds := [] }

/-- Concrete vanilla state with one leased job. -/
def vstProcW : VanillaDriver.State :=
  { queues := [("q", [vjobProcW]), ("dlq", [])], ackedIds := [] }

/-- Claim C4 (amended): ack never raises; in the memory driver it is a
silent no-op (beyond creating missing queue keys) when the id is not
found, and in the vanilla driver also when the job is found but not in
leased (processing) status; under unique job ids a second ack after a
first ack is a no-op in both drivers.  In the memory driver, however,
an existing unleased job is removed by ack, as the counterexample
records. -/
theorem ack_noop_amended (cfg : DriverConfig)
    (mst1 mst2 : MemoryDriver.State) (vst1 vst2 : VanillaDriver.State) (id : String)
    (hm1 : ∀ y ∈ MemoryDriver.currentQueue cfg (MemoryDriver.defineQueue cfg mst1),
      y.id ≠ id)
    (hm2 : ((MemoryDriver.currentQueue cfg (MemoryDriver.defineQueue cfg mst2)).map
      MemoryDriver.Job.id).Nodup)
    (hv1 : ∀ y ∈ VanillaDriver.currentQueue cfg (VanillaDriver.defineQueue cfg vst1),
      ¬(y.id = id ∧ y.status = VanillaDriver.JobStatus.processing))
    (hv2 : ((VanillaDriver.currentQueue cfg (VanillaDriver.defineQueue cfg vst2)).map
      VanillaDriver.Job.id).Nodup) :
    MemoryDriver.ack cfg mst1 id = MemoryDriver.defineQueue cfg mst1 ∧
    MemoryDriver.ack cfg (MemoryDriver.ack cfg mst2 id) id = MemoryDriver.ack cfg mst2 id ∧
    VanillaDriver.ack cfg vst1 id = VanillaDriver.defineQueue cfg vst1 ∧
    VanillaDriver.ack cfg (VanillaDriver.ack cfg vst2 id) id = VanillaDriver.ack cfg vst2 id :=
  ⟨MemoryDriver.ack_of_not_found cfg mst1 id hm1,
   MemoryDriver.ack_ack cfg mst2 id hm2,
   VanillaDriver.ack_of_not_leased cfg vst1 id hv1,
   VanillaDriver.vanilla_ack_ack cfg vst2 id hv2⟩

/-- Claim C4 witness: the amended ack statement evaluated on an empty
memory state, the one-job memory state, a vanilla state whose only job
with the id is pending, and a vanilla state whose only job is
leased. -/
theorem ack_noop_amended_witness :
    (∀ y ∈ MemoryDriver.currentQueue cfgW
      (MemoryDriver.defineQueue cfgW { queues := [], ackedIds := [] }), y.id ≠ "j1") ∧
    ((MemoryDriver.currentQueue cfgW (MemoryDriver.defineQueue cfgW mstW)).map
      MemoryDriver.Job.id).Nodup ∧
    (∀ y ∈ VanillaDriver.currentQueue cfgW (VanillaDriver.defineQueue cfgW vstPendW),
      ¬(y.id = "j1" ∧ y.status = VanillaDriver.JobStatus.processing)) ∧
    ((VanillaDriver.currentQueue cfgW (VanillaDriver.defineQueue cfgW vstProcW)).map
      VanillaDriver.Job.id).Nodup ∧
    (MemoryDriver.ack cfgW { queues := [], ackedIds := [] } "j1" =
       MemoryDriver.defineQueue cfgW { queues := [], ackedIds := [] } ∧
     MemoryDriver.ack cfgW (MemoryDriver.ack cfgW mstW "j1") "j1" =
       MemoryDriver.ack cfgW mstW "j1" ∧
     VanillaDriver.ack cfgW vstPendW "j1" = VanillaDriver.defineQueue cfgW vstPendW ∧
     VanillaDriver.ack cfgW (VanillaDriver.ack cfgW vstProcW "j1") "j1" =
       VanillaDriver.ack cfgW vstProcW "j1") := by
  refine ⟨by with_unfolding_all decide, by with_unfolding_all decide,
    by with_unfolding_all decide, by with_unfolding_all decide, ?_⟩
  exact ack_noop_amended cfgW { queues := [], ackedIds := [] } mstW vstPendW vstProcW "j1"
    (by with_unfolding_all decide) (by with_unfolding_all decide)
    (by with_unfolding_all decide) (by with_unfolding_all decide)

/-! ## Claim C2: retry path -/

theorem qset_qset {β : Type} (m : QMap β) (k : String) (v w : β) :
    qset (qset m k v) k w = qset m k w := by
  induction m with
  | nil => simp [qset]
  | cons e rest ih =>
    by_cases h : e.1 = k
    · simp [qset, h]
    · simp [qset, h, ih]

theorem MemoryDriver.process_failure_retry (cfg : DriverConfig) (st : MemoryDriver.State)
    (nowPeek nowLease nowDone rJitter rBackoff : ℚ) (i : ℕ) (j : MemoryDriver.Job)
    (hfind : findWithIdx (MemoryDriver.eligibleAt nowPeek)
      (MemoryDriver.currentQueue cfg (MemoryDriver.peekState cfg st nowPeek)) = some (i, j))
    (hretry : 0 < j.attempts - 1) :
    MemoryDriver.process cfg st nowPeek nowLease nowDone rJitter rBackoff .failure =
      { queues := qset (MemoryDriver.peekState cfg st nowPeek).queues cfg.queueName
          ((MemoryDriver.currentQueue cfg (MemoryDriver.peekState cfg st nowPeek)).set i
            { j with attempts := j.attempts - 1, reservedUntil := none,
                     availableAt := nowDone +
                       calculateBackoffDelay cfg.backoff cfg.attempts (j.attempts - 1) rBackoff +
                       ((⌊rJitter * cfg.workerInterval⌋ : ℤ) : ℚ) }),
        ackedIds := (MemoryDriver.peekState cfg st nowPeek).ackedIds.filter
          (fun x => x ≠ j.id) } := by
  have hne := findWithIdx_some_ne_nil _ _ _ hfind
  simp only [MemoryDriver.process, MemoryDriver.peekWithIdx, hne, Bool.false_eq_true,
    if_false, hfind]
  rw [if_pos hretry]
  dsimp only [MemoryDriver.currentQueue]
  rw [qget_qset_self]
  dsimp only [Option.getD]
  rw [List.set_set, qset_qset]
  rw [qget_qset_self]
  dsimp only [Option.getD]
  rw [List.set_set, qset_qset]

theorem DatabaseDriver.updateRows_mem (p : DatabaseDriver.Row → Bool)
    (f : DatabaseDriver.Row → DatabaseDriver.Row) (t : List DatabaseDriver.Row)
    (r : DatabaseDriver.Row) (hr : r ∈ t) (hp : p r = true) :
    f r ∈ DatabaseDriver.updateRows p f t := by
  unfold DatabaseDriver.updateRows
  have hm := List.mem_map_of_mem (fun r => if p r then f r else r) hr
  simp only [hp, if_true] at hm
  exact hm

theorem DatabaseDriver.db_process_failure_retry (cfg : DriverConfig)
    (st : DatabaseDriver.State) (nowPeek nowLease nowDone rJitter rBackoff : ℚ)
    (j : DatabaseDriver.Row)
    (hpeek : (DatabaseDriver.peek cfg st nowPeek).1 = some j)
    (hretry : 0 < j.attempts - 1) :
    DatabaseDriver.process cfg st nowPeek nowLease nowDone rJitter rBackoff .failure =
      { table := DatabaseDriver.updateRows (fun r => decide (r.id = j.id))
          (fun r =>
            { r with
              reservedUntil := none,
              availableAt := nowDone +
                calculateBackoffDelay cfg.backoff cfg.attempts (j.attempts - 1) rBackoff +
                ((⌊rJitter * cfg.workerInterval⌋ : ℤ) : ℚ) })
          (DatabaseDriver.updateRows (fun r => decide (r.id = j.id))
            (fun r =>
              { r with
                attempts := j.attempts - 1,
                reservedUntil := some (nowLease + cfg.visibilityTimeout) })
            (DatabaseDriver.releaseExpiredLeases cfg st nowPeek).table),
        ackedIds := (DatabaseDriver.releaseExpiredLeases cfg st nowPeek).ackedIds.filter
          (fun x => x ≠ j.id) } := by
  simp only [DatabaseDriver.process, hpeek]
  rw [if_pos hretry]
  rfl

theorem DatabaseDriver.peek_some_mem (cfg : DriverConfig) (st : DatabaseDriver.State)
    (now : ℚ) (j : DatabaseDriver.Row)
    (h : (DatabaseDriver.peek cfg st now).1 = some j) :
    j ∈ (DatabaseDriver.releaseExpiredLeases cfg st now).table := by
  rw [DatabaseDriver.peek_fst] at h
  have hmem := DatabaseDriver.selectFirst_mem _ _ h
  exact (List.mem_filter.mp hmem).1

/-- Claim C2: on a handler failure with a positive decremented attempt
counter, both the memory driver and the database driver keep the job
in the store (not acked), clear the lease field, and set availableAt
to now plus the backoff delay plus the requeue jitter, where the
jitter is the floor of a uniform draw scaled by workerInterval and
lies in the half-open range from 0 to workerInterval. -/
theorem retry_path (cfg : DriverConfig) (mst : MemoryDriver.State)
    (dst : DatabaseDriver.State) (nowPeek nowLease nowDone rJitter rBackoff : ℚ)
    (i : ℕ) (j : MemoryDriver.Job) (r : DatabaseDriver.Row)
    (hfind : findWithIdx (MemoryDriver.eligibleAt nowPeek)
      (MemoryDriver.currentQueue cfg (MemoryDriver.peekState cfg mst nowPeek)) = some (i, j))
    (hretry : 0 < j.attempts - 1)
    (hpeek : (DatabaseDriver.peek cfg dst nowPeek).1 = some r)
    (hretry2 : 0 < r.attempts - 1)
    (hr0 : 0 ≤ rJitter) (hr1 : rJitter < 1) (hwi : 0 < cfg.workerInterval) :
    { j with
      attempts := j.attempts - 1,
      reservedUntil := none,
      availableAt := nowDone +
        calculateBackoffDelay cfg.backoff cfg.attempts (j.attempts - 1) rBackoff +
        ((⌊rJitter * cfg.workerInterval⌋ : ℤ) : ℚ) } ∈
      MemoryDriver.currentQueue cfg
        (MemoryDriver.process cfg mst nowPeek nowLease nowDone rJitter rBackoff .failure) ∧
    j.id ∉ (MemoryDriver.process cfg mst nowPeek nowLease nowDone rJitter rBackoff
      .failure).ackedIds ∧
    { r with
      attempts := r.attempts - 1,
      reservedUntil := none,
      availableAt := nowDone +
        calculateBackoffDelay cfg.backoff cfg.attempts (r.attempts - 1) rBackoff +
        ((⌊rJitter * cfg.workerInterval⌋ : ℤ) : ℚ) } ∈
      (DatabaseDriver.process cfg dst nowPeek nowLease nowDone rJitter rBackoff
        .failure).table ∧
    r.id ∉ (DatabaseDriver.process cfg dst nowPeek nowLease nowDone rJitter rBackoff
      .failure).ackedIds ∧
    0 ≤ ⌊rJitter * cfg.workerInterval⌋ ∧
    ((⌊rJitter * cfg.workerInterval⌋ : ℤ) : ℚ) < cfg.workerInterval := by
  have hproc := MemoryDriver.process_failure_retry cfg mst nowPeek nowLease nowDone
    rJitter rBackoff i j hfind hretry
  have hdb := DatabaseDriver.db_process_failure_retry cfg dst nowPeek nowLease nowDone
    rJitter rBackoff r hpeek hretry2
  refine ⟨?_, ?_, ?_, ?_, ?_, ?_⟩
  · rw [hproc]
    show _ ∈ (qget (qset (MemoryDriver.peekState cfg mst nowPeek).queues cfg.queueName _)
      cfg.queueName).getD []
    rw [qget_qset_self]
    exact mem_set_self _ i _ (findWithIdx_some_lt _ _ _ _ hfind)
  · rw [hproc]
    intro hmem
    have := List.of_mem_filter hmem
    simp at this
  · rw [hdb]
    have hmem := DatabaseDriver.peek_some_mem cfg dst nowPeek r hpeek
    have h1 : ({ r with
        attempts := r.attempts - 1,
        reservedUntil := some (nowLease + cfg.visibilityTimeout) } : DatabaseDriver.Row) ∈
        DatabaseDriver.updateRows (fun x => decide (x.id = r.id))
          (fun x =>
            { x with
              attempts := r.attempts - 1,
              reservedUntil := some (nowLease + cfg.visibilityTimeout) })
          (DatabaseDriver.releaseExpiredLeases cfg dst nowPeek).table :=
      DatabaseDriver.updateRows_mem _ _ _ r hmem (by simp)
    have h2 := DatabaseDriver.updateRows_mem (fun x => decide (x.id = r.id))
      (fun x =>
        { x with
          reservedUntil := none,
          availableAt := nowDone +
            calculateBackoffDelay cfg.backoff cfg.attempts (r.attempts - 1) rBackoff +
            ((⌊rJitter * cfg.workerInterval⌋ : ℤ) : ℚ) }) _ _ h1 (by simp)
    exact h2
  · rw [hdb]
    intro hmem
    have := List.of_mem_filter hmem
    simp at this
  · exact Int.floor_nonneg.mpr (mul_nonneg hr0 (le_of_lt hwi))
  · calc ((⌊rJitter * cfg.workerInterval⌋ : ℤ) : ℚ) ≤ rJitter * cfg.workerInterval :=
          Int.floor_le _
      _ < cfg.workerInterval := mul_lt_of_lt_one_left hwi hr1

/-- Claim C2 witness: the retry statement evaluated on the one-job
memory state and the one-row database state, with peek at time 0,
lease at time 5, completion at time 10 and both random draws 1/2. -/
theorem retry_path_witness :
    findWithIdx (MemoryDriver.eligibleAt 0)
      (MemoryDriver.currentQueue cfgW (MemoryDriver.peekState cfgW mstW 0)) =
        some (0, jobW) ∧
    (0 : ℤ) < jobW.attempts - 1 ∧
    (DatabaseDriver.peek cfgW dstW 0).1 = some rowW ∧
    (0 : ℤ) < rowW.attempts - 1 ∧
    (0 : ℚ) ≤ 1/2 ∧ (1/2 : ℚ) < 1 ∧ (0 : ℚ) < cfgW.workerInterval ∧
    ({ jobW with
      attempts := jobW.attempts - 1,
      reservedUntil := none,
      availableAt := 10 +
        calculateBackoffDelay cfgW.backoff cfgW.attempts (jobW.attempts - 1) (1/2) +
        ((⌊(1/2 : ℚ) * cfgW.workerInterval⌋ : ℤ) : ℚ) } ∈
      MemoryDriver.currentQueue cfgW
        (MemoryDriver.process cfgW mstW 0 5 10 (1/2) (1/2) .failure) ∧
    jobW.id ∉ (MemoryDriver.process cfgW mstW 0 5 10 (1/2) (1/2) .failure).ackedIds ∧
    { rowW with
      attempts := rowW.attempts - 1,
      reservedUntil := none,
      availableAt := 10 +
        calculateBackoffDelay cfgW.backoff cfgW.attempts (rowW.attempts - 1) (1/2) +
        ((⌊(1/2 : ℚ) * cfgW.workerInterval⌋ : ℤ) : ℚ) } ∈
      (DatabaseDriver.process cfgW dstW 0 5 10 (1/2) (1/2) .failure).table ∧
    rowW.id ∉ (DatabaseDriver.process cfgW dstW 0 5 10 (1/2) (1/2) .failure).ackedIds ∧
    0 ≤ ⌊(1/2 : ℚ) * cfgW.workerInterval⌋ ∧
    ((⌊(1/2 : ℚ) * cfgW.workerInterval⌋ : ℤ) : ℚ) < cfgW.workerInterval) := by
  refine ⟨by with_unfolding_all decide, by with_unfolding_all decide,
    by with_unfolding_all decide, by with_unfolding_all decide,
    by with_unfolding_all decide, by with_unfolding_all decide,
    by with_unfolding_all decide, ?_⟩
  exact retry_path cfgW mstW dstW 0 5 10 (1/2) (1/2) 0 jobW rowW
    (by with_unfolding_all decide) (by with_unfolding_all decide)
    (by with_unfolding_all decide) (by with_unfolding_all decide)
    (by with_unfolding_all decide) (by with_unfolding_all decide)
    (by with_unfolding_all decide)

/-! ## Claim C1: dead-letter path -/

theorem set_get_self {α : Type} (l : List α) (i : ℕ) (a : α)
    (h : l.get? i = some a) : l.set i a = l := by
  induction l generalizing i with
  | nil => simp at h
  | cons b rest ih =>
    cases i with
    | zero =>
      obtain rfl := Option.some.inj h
      simp [List.set]
    | succ n =>
      simp only [List.set]
      rw [ih n h]

theorem filter_ne_contains_false (l : List String) (id : String) :
    (l.filter (fun x => x ≠ id)).contains id = false := by
  induction l with
  | nil => rfl
  | cons a rest ih =>
    by_cases h : a = id
    · simp [List.filter_cons, h, ih]
    · simp [List.filter_cons, h, List.contains_cons, ih, Ne.symm h]

theorem MemoryDriver.ids_set (q : List MemoryDriver.Job) (i : ℕ)
    (j j2 : MemoryDriver.Job) (hget : q.get? i = some j) (hid : j2.id = j.id) :
    (q.set i j2).map MemoryDriver.Job.id = q.map MemoryDriver.Job.id := by
  rw [List.map_set, hid]
  refine set_get_self _ i _ ?_
  show (q.map MemoryDriver.Job.id).get? i = some j.id
  rw [List.get?_eq_getElem?, List.getElem?_map, ← List.get?_eq_getElem?, hget]
  rfl

theorem MemoryDriver.ack_eq (cfg : DriverConfig) (st : MemoryDriver.State)
    (id : String) (q4 : List MemoryDriver.Job)
    (hk1 : (qget st.queues cfg.queueName).isSome = true)
    (hk2 : (qget st.queues (dlKey cfg.deadletter)).isSome = true)
    (hrm : removeFirstP (fun x => x.id = id) (MemoryDriver.currentQueue cfg st) = some q4) :
    MemoryDriver.ack cfg st id =
      { queues := qset st.queues cfg.queueName q4,
        ackedIds := if st.ackedIds.contains id then st.ackedIds
                    else st.ackedIds ++ [id] } := by
  have hdef := MemoryDriver.defineQueue_of_keys cfg st hk1 hk2
  simp only [MemoryDriver.ack, hdef, hrm]

theorem MemoryDriver.currentQueue_mk (cfg : DriverConfig)
    (X : QMap (List MemoryDriver.Job)) (Y : List String) :
    MemoryDriver.currentQueue cfg { queues := X, ackedIds := Y } =
      (qget X cfg.queueName).getD [] := rfl

theorem MemoryDriver.process_failure_exhaust (cfg : DriverConfig)
    (st : MemoryDriver.State) (nowPeek nowLease nowDone rJitter rBackoff : ℚ)
    (i : ℕ) (j : MemoryDriver.Job) (dl : String) (q4 : List MemoryDriver.Job)
    (hfind : findWithIdx (MemoryDriver.eligibleAt nowPeek)
      (MemoryDriver.currentQueue cfg (MemoryDriver.peekState cfg st nowPeek)) = some (i, j))
    (hexh : ¬ 0 < j.attempts - 1)
    (hdl : cfg.deadletter = some dl) (hdlne : dl ≠ "") (hqd : cfg.queueName ≠ dl)
    (hrm : removeFirstP (fun x => x.id = j.id)
      ((MemoryDriver.currentQueue cfg (MemoryDriver.peekState cfg st nowPeek)).set i
        { j with attempts := j.attempts - 1, reservedUntil := none }) = some q4) :
    MemoryDriver.process cfg st nowPeek nowLease nowDone rJitter rBackoff .failure =
      { queues := qset (qset (MemoryDriver.peekState cfg st nowPeek).queues cfg.queueName q4)
          dl (((qget (MemoryDriver.peekState cfg st nowPeek).queues dl).getD []) ++
            [{ j with attempts := 0, reservedUntil := none }]),
        ackedIds := (MemoryDriver.peekState cfg st nowPeek).ackedIds.filter
          (fun x => x ≠ j.id) ++ [j.id] } := by
  have hne := findWithIdx_some_ne_nil _ _ _ hfind
  have hdltruthy : strOptTruthy cfg.deadletter = true := by
    rw [hdl]
    simpa [strOptTruthy] using hdlne
  have hdlkey : dlKey cfg.deadletter = dl := by rw [hdl]; rfl
  simp only [MemoryDriver.process, MemoryDriver.peekWithIdx, hne, Bool.false_eq_true,
    if_false, hfind]
  rw [if_neg hexh]
  set m1 := (MemoryDriver.peekState cfg st nowPeek).queues with hm1
  set q := MemoryDriver.currentQueue cfg (MemoryDriver.peekState cfg st nowPeek) with hq
  set A := (MemoryDriver.peekState cfg st nowPeek).ackedIds.filter
    (fun x => x ≠ j.id) with hA
  have hqmk : MemoryDriver.currentQueue cfg { queues := m1, ackedIds := A } = q := by
    rw [MemoryDriver.currentQueue_mk, hq, hm1]
    rfl
  simp only [hqmk, MemoryDriver.currentQueue_mk, qget_qset_self, Option.getD_some,
    List.set_set, qset_qset]
  rw [MemoryDriver.ack_eq cfg
    { queues := qset m1 cfg.queueName
        (q.set i { j with attempts := j.attempts - 1, reservedUntil := none }),
      ackedIds := A } j.id q4
    (by show (qget (qset m1 cfg.queueName _) cfg.queueName).isSome = true
        rw [qget_qset_self]; rfl)
    (by show (qget (qset m1 cfg.queueName _) (dlKey cfg.deadletter)).isSome = true
        rw [hdlkey, qget_qset_ne _ _ _ _ hqd, hm1]
        show (qget (MemoryDriver.peekState cfg st nowPeek).queues dl).isSome = true
        unfold MemoryDriver.peekState MemoryDriver.releaseExpiredLeases
        show (qget (qmodify (MemoryDriver.defineQueue cfg st).queues cfg.queueName _) dl).isSome = true
        rw [qget_qmodify_ne _ _ _ _ hqd]
        have hds := MemoryDriver.qget_defineQueue_dl cfg st
        rwa [hdlkey] at hds)
    (by rw [MemoryDriver.currentQueue_mk, qget_qset_self]
        exact hrm)]
  rw [if_pos hdltruthy]
  simp only [qset_qset]
  have hcont : A.contains j.id = false := by
    rw [hA]
    exact filter_ne_contains_false _ _
  rw [hcont]
  simp only [Bool.false_eq_true, if_false]
  rw [hdlkey, qget_qset_ne _ _ _ _ hqd]

theorem VanillaDriver.vanilla_currentQueue_mk (cfg : DriverConfig)
    (X : QMap (List VanillaDriver.Job)) (Y : List String) :
    VanillaDriver.currentQueue cfg { queues := X, ackedIds := Y } =
      (qget X cfg.queueName).getD [] := rfl

theorem VanillaDriver.vanilla_process_failure_exhaust (cfg : DriverConfig)
    (st : VanillaDriver.State) (nowPeek nowLease nowDone rJitter rBackoff : ℚ)
    (i : ℕ) (j : VanillaDriver.Job) (dl : String) (q4 : List VanillaDriver.Job)
    (hfind : findWithIdx (VanillaDriver.eligibleAt nowPeek)
      (VanillaDriver.currentQueue cfg (VanillaDriver.peekState cfg st nowPeek)) = some (i, j))
    (hexh : ¬ 0 < j.attemptsLeft - 1)
    (hdl : cfg.deadletter = some dl) (hdlne : dl ≠ "") (hqd : cfg.queueName ≠ dl)
    (hrm : removeFirstP (fun x => x.id = j.id)
      ((VanillaDriver.currentQueue cfg (VanillaDriver.peekState cfg st nowPeek)).set i
        { j with
          attemptsLeft := j.attemptsLeft - 1,
          status := VanillaDriver.JobStatus.processing,
          leaseUntil := none }) = some q4) :
    VanillaDriver.process cfg st nowPeek nowLease nowDone rJitter rBackoff .failure =
      { queues := qset (qset (VanillaDriver.peekState cfg st nowPeek).queues cfg.queueName q4)
          dl (((qget (VanillaDriver.peekState cfg st nowPeek).queues dl).getD []) ++
            [{ j with
               status := VanillaDriver.JobStatus.pending,
               attemptsLeft := 0,
               leaseUntil := none,
               queue := cfg.deadletter,
               formerQueue := some cfg.queueName }]),
        ackedIds := (VanillaDriver.peekState cfg st nowPeek).ackedIds.filter
          (fun x => x ≠ j.id) } := by
  have hne := findWithIdx_some_ne_nil _ _ _ hfind
  have hdltruthy : strOptTruthy cfg.deadletter = true := by
    rw [hdl]
    simpa [strOptTruthy] using hdlne
  have hdlkey : dlKey cfg.deadletter = dl := by rw [hdl]; rfl
  simp only [VanillaDriver.process, VanillaDriver.peekWithIdx, hne, Bool.false_eq_true,
    if_false, hfind]
  rw [if_neg hexh]
  set m1 := (VanillaDriver.peekState cfg st nowPeek).queues with hm1
  set q := VanillaDriver.currentQueue cfg (VanillaDriver.peekState cfg st nowPeek) with hq
  set A := (VanillaDriver.peekState cfg st nowPeek).ackedIds.filter
    (fun x => x ≠ j.id) with hA
  have hqmk : VanillaDriver.currentQueue cfg { queues := m1, ackedIds := A } = q := by
    rw [VanillaDriver.vanilla_currentQueue_mk, hq, hm1]
    rfl
  simp only [hqmk, VanillaDriver.vanilla_currentQueue_mk, qget_qset_self, Option.getD_some,
    List.set_set, qset_qset]
  rw [hrm]
  rw [if_pos hdltruthy]
  simp only [qset_qset]
  rw [hdlkey, qget_qset_ne _ _ _ _ hqd]

theorem VanillaDriver.vanilla_ids_set (q : List VanillaDriver.Job) (i : ℕ)
    (j j2 : VanillaDriver.Job) (hget : q.get? i = some j) (hid : j2.id = j.id) :
    (q.set i j2).map VanillaDriver.Job.id = q.map VanillaDriver.Job.id := by
  rw [List.map_set, hid]
  refine set_get_self _ i _ ?_
  show (q.map VanillaDriver.Job.id).get? i = some j.id
  rw [List.get?_eq_getElem?, List.getElem?_map, ← List.get?_eq_getElem?, hget]
  rfl

/-- Concrete configuration with a single-attempt budget, used by the
exhaustion counterexample and witness. -/
def cfgExh : DriverConfig :=
  { queueName := "q", deadletter := some "dlq", attempts := 1, backoff := none,
    workerInterval := 1000, visibilityTimeout := 5000, noAckDelayMs := 300 }

/-- Concrete memory job with one attempt left. -/
def jobExh : MemoryDriver.Job :=
  { id := "j1", attempts := 1, availableAt := 0, reservedUntil := none,
    createdAt := 0, data := "payload" }

/-- Concrete memory state holding the one-attempt job. -/
def mstExh : MemoryDriver.State :=
  { queues := [("q", [jobExh]), ("dlq", [])], ackedIds := [] }

/-- Concrete vanilla job with one attempt left. -/
def vjobExh : VanillaDriver.Job :=
  { id := "j1", status := .pending, attemptsLeft := 1, availableAt := 0,
    leaseUntil := none, data := "payload" }

/-- Concrete vanilla state holding the one-attempt job. -/
def vstExh : VanillaDriver.State :=
  { queues := [("q", [vjobExh]), ("dlq", [])], ackedIds := [] }

/-- Claim C1 counterexample: in the memory driver, after a failing
handler exhausts the last attempt, the dead-letter copy has no
formerQueue field (it reads as undefined), so it is not equal to the
source queue name as the claim requires; the job is removed from the
source queue and the copy does carry attempts 0. -/
theorem memoryDeadletter_formerQueue_cex :
    qget (MemoryDriver.process cfgExh mstExh 0 5 10 (1/2) (1/2) .failure).queues "q" =
      some [] ∧
    qget (MemoryDriver.process cfgExh mstExh 0 5 10 (1/2) (1/2) .failure).queues "dlq" =
      some [{ id := "j1", attempts := 0, availableAt := 0, reservedUntil := none,
              createdAt := 0, data := "payload", formerQueue := none }] ∧
    ({ id := "j1", attempts := 0, availableAt := 0, reservedUntil := none,
       createdAt := 0, data := "payload",
       formerQueue := none } : MemoryDriver.Job).formerQueue ≠ some cfgExh.queueName := by
  refine ⟨by with_unfolding_all decide, by with_unfolding_all decide,
    by with_unfolding_all decide⟩

/-- Claim C1 (amended): for a job whose attempts-left counter is 0
after the lease-time decrement and whose handler throws, process
removes the job from the source queue (under unique job ids) and, when
a dead-letter queue distinct from the source queue is configured,
appends exactly one copy to it with the attempts counter reset to 0
and the lease cleared.  In the vanilla driver the copy additionally
records queue as the dead-letter name and formerQueue as the source
queue name; in the memory driver the copy keeps the fields of the
original job, whose formerQueue is never assigned, so the copy carries
no formerQueue value. -/
theorem deadletter_completeness_amended (cfg : DriverConfig)
    (mst : MemoryDriver.State) (vst : VanillaDriver.State)
    (nowPeek nowLease nowDone rJitter rBackoff : ℚ) (i iv : ℕ)
    (j y : MemoryDriver.Job) (jv yv : VanillaDriver.Job) (dl : String)
    (hfind : findWithIdx (MemoryDriver.eligibleAt nowPeek)
      (MemoryDriver.currentQueue cfg (MemoryDriver.peekState cfg mst nowPeek)) = some (i, j))
    (hexh : j.attempts - 1 = 0)
    (hvfind : findWithIdx (VanillaDriver.eligibleAt nowPeek)
      (VanillaDriver.currentQueue cfg (VanillaDriver.peekState cfg vst nowPeek)) = some (iv, jv))
    (hvexh : jv.attemptsLeft - 1 = 0)
    (hdl : cfg.deadletter = some dl) (hdlne : dl ≠ "") (hqd : cfg.queueName ≠ dl)
    (hnodup : ((MemoryDriver.currentQueue cfg (MemoryDriver.peekState cfg mst nowPeek)).map
      MemoryDriver.Job.id).Nodup)
    (hvnodup : ((VanillaDriver.currentQueue cfg (VanillaDriver.peekState cfg vst nowPeek)).map
      VanillaDriver.Job.id).Nodup) :
    (y ∈ MemoryDriver.currentQueue cfg
      (MemoryDriver.process cfg mst nowPeek nowLease nowDone rJitter rBackoff .failure) →
      y.id ≠ j.id) ∧
    qget (MemoryDriver.process cfg mst nowPeek nowLease nowDone rJitter rBackoff
        .failure).queues dl =
      some (((qget (MemoryDriver.peekState cfg mst nowPeek).queues dl).getD []) ++
        [{ j with attempts := 0, reservedUntil := none }]) ∧
    (yv ∈ VanillaDriver.currentQueue cfg
      (VanillaDriver.process cfg vst nowPeek nowLease nowDone rJitter rBackoff .failure) →
      yv.id ≠ jv.id) ∧
    qget (VanillaDriver.process cfg vst nowPeek nowLease nowDone rJitter rBackoff
        .failure).queues dl =
      some (((qget (VanillaDriver.peekState cfg vst nowPeek).queues dl).getD []) ++
        [{ jv with
           status := VanillaDriver.JobStatus.pending,
           attemptsLeft := 0,
           leaseUntil := none,
           queue := some dl,
           formerQueue := some cfg.queueName }]) := by
  have hexhlt : ¬ 0 < j.attempts - 1 := by rw [hexh]; exact lt_irrefl 0
  have hvexhlt : ¬ 0 < jv.attemptsLeft - 1 := by rw [hvexh]; exact lt_irrefl 0
  have hget := (findWithIdx_some _ _ _ _ hfind).2
  have hvget := (findWithIdx_some _ _ _ _ hvfind).2
  have hlt := findWithIdx_some_lt _ _ _ _ hfind
  have hvlt := findWithIdx_some_lt _ _ _ _ hvfind
  set q := MemoryDriver.currentQueue cfg (MemoryDriver.peekState cfg mst nowPeek) with hqdef
  set vq := VanillaDriver.currentQueue cfg (VanillaDriver.peekState cfg vst nowPeek) with hvqdef
  set j2 : MemoryDriver.Job :=
    { j with attempts := j.attempts - 1, reservedUntil := none } with hj2
  set jv2 : VanillaDriver.Job :=
    { jv with
      attemptsLeft := jv.attemptsLeft - 1,
      status := VanillaDriver.JobStatus.processing,
      leaseUntil := none } with hjv2
  have hmem2 : j2 ∈ q.set i j2 := mem_set_self _ i _ hlt
  have hvmem2 : jv2 ∈ vq.set iv jv2 := mem_set_self _ iv _ hvlt
  obtain ⟨q4, hrm⟩ : ∃ q4, removeFirstP (fun x => x.id = j.id) (q.set i j2) = some q4 := by
    cases hcase : removeFirstP (fun x => x.id = j.id) (q.set i j2) with
    | some q4 => exact ⟨q4, rfl⟩
    | none =>
      have := (removeFirstP_none_iff _ _).mp hcase j2 hmem2
      simp [hj2] at this
  obtain ⟨vq4, hvrm⟩ : ∃ vq4, removeFirstP (fun x => x.id = jv.id) (vq.set iv jv2) = some vq4 := by
    cases hcase : removeFirstP (fun x => x.id = jv.id) (vq.set iv jv2) with
    | some vq4 => exact ⟨vq4, rfl⟩
    | none =>
      have := (removeFirstP_none_iff _ _).mp hcase jv2 hvmem2
      simp [hjv2] at this
  have hmexh := MemoryDriver.process_failure_exhaust cfg mst nowPeek nowLease nowDone
    rJitter rBackoff i j dl q4 hfind hexhlt hdl hdlne hqd hrm
  have hvexh2 := VanillaDriver.vanilla_process_failure_exhaust cfg vst nowPeek nowLease nowDone
    rJitter rBackoff iv jv dl vq4 hvfind hvexhlt hdl hdlne hqd hvrm
  have hnodup2 : ((q.set i j2).map MemoryDriver.Job.id).Nodup := by
    rw [MemoryDriver.ids_set q i j j2 hget rfl]
    exact hnodup
  have hvnodup2 : ((vq.set iv jv2).map VanillaDriver.Job.id).Nodup := by
    rw [VanillaDriver.vanilla_ids_set vq iv jv jv2 hvget rfl]
    exact hvnodup
  have habsent : ∀ z ∈ q4, z.id ≠ j.id :=
    removeFirstP_absent_key _ MemoryDriver.Job.id j.id _ q4 hnodup2
      (fun x hx => by simpa using hx) hrm
  have hvabsent : ∀ z ∈ vq4, z.id ≠ jv.id :=
    removeFirstP_absent_key _ VanillaDriver.Job.id jv.id _ vq4 hvnodup2
      (fun x hx => by simpa using hx) hvrm
  refine ⟨?_, ?_, ?_, ?_⟩
  · rw [hmexh]
    intro hy
    refine habsent y ?_
    rw [MemoryDriver.currentQueue_mk, qget_qset_ne _ _ _ _ (Ne.symm hqd),
      qget_qset_self] at hy
    exact hy
  · rw [hmexh]
    show qget (qset _ dl _) dl = _
    rw [qget_qset_self]
  · rw [hvexh2]
    intro hy
    refine hvabsent yv ?_
    rw [VanillaDriver.vanilla_currentQueue_mk, qget_qset_ne _ _ _ _ (Ne.symm hqd),
      qget_qset_self] at hy
    exact hy
  · rw [hvexh2]
    show qget (qset _ dl _) dl = _
    rw [qget_qset_self, hdl]

/-- Claim C1 witness: the amended dead-letter statement evaluated on
the single-attempt fixtures of both drivers. -/
theorem deadletter_completeness_amended_witness :
    findWithIdx (MemoryDriver.eligibleAt 0)
      (MemoryDriver.currentQueue cfgExh (MemoryDriver.peekState cfgExh mstExh 0)) =
        some (0, jobExh) ∧
    jobExh.attempts - 1 = 0 ∧
    findWithIdx (VanillaDriver.eligibleAt 0)
      (VanillaDriver.currentQueue cfgExh (VanillaDriver.peekState cfgExh vstExh 0)) =
        some (0, vjobExh) ∧
    vjobExh.attemptsLeft - 1 = 0 ∧
    cfgExh.deadletter = some "dlq" ∧
    "dlq" ≠ "" ∧
    cfgExh.queueName ≠ "dlq" ∧
    ((MemoryDriver.currentQueue cfgExh (MemoryDriver.peekState cfgExh mstExh 0)).map
      MemoryDriver.Job.id).Nodup ∧
    ((VanillaDriver.currentQueue cfgExh (VanillaDriver.peekState cfgExh vstExh 0)).map
      VanillaDriver.Job.id).Nodup ∧
    ((jobExh ∈ MemoryDriver.currentQueue cfgExh
      (MemoryDriver.process cfgExh mstExh 0 5 10 (1/2) (1/2) .failure) →
      jobExh.id ≠ jobExh.id) ∧
    qget (MemoryDriver.process cfgExh mstExh 0 5 10 (1/2) (1/2) .failure).queues "dlq" =
      some (((qget (MemoryDriver.peekState cfgExh mstExh 0).queues "dlq").getD []) ++
        [{ jobExh with attempts := 0, reservedUntil := none }]) ∧
    (vjobExh ∈ VanillaDriver.currentQueue cfgExh
      (VanillaDriver.process cfgExh vstExh 0 5 10 (1/2) (1/2) .failure) →
      vjobExh.id ≠ vjobExh.id) ∧
    qget (VanillaDriver.process cfgExh vstExh 0 5 10 (1/2) (1/2) .failure).queues "dlq" =
      some (((qget (VanillaDriver.peekState cfgExh vstExh 0).queues "dlq").getD []) ++
        [{ vjobExh with
           status := VanillaDriver.JobStatus.pending,
           attemptsLeft := 0,
           leaseUntil := none,
           queue := some "dlq",
           formerQueue := some cfgExh.queueName }])) := by
  refine ⟨by with_unfolding_all decide, by with_unfolding_all decide,
    by with_unfolding_all decide, by with_unfolding_all decide,
    rfl, by decide, by with_unfolding_all decide,
    by with_unfolding_all decide, by with_unfolding_all decide, ?_⟩
  exact deadletter_completeness_amended cfgExh mstExh vstExh 0 5 10 (1/2) (1/2) 0 0
    jobExh jobExh vjobExh vjobExh "dlq"
    (by with_unfolding_all decide) (by with_unfolding_all decide)
    (by with_unfolding_all decide) (by with_unfolding_all decide)
    rfl (by decide) (by with_unfolding_all decide)
    (by with_unfolding_all decide) (by with_unfolding_all decide)
